import Mathlib

/-!
Verification of `constants.go` of luxfi/version.

A shallow embedding of `src/constants.go`: the package-level version
constants, the `init` function (build-time version injection followed by the
loading of the RPC-chain-VM protocol compatibility table) and
`GetCompatibility`.

Conventions of the embedding.

* A Go `string` is a `String`; the bytes Go iterates over are `goBytes s`,
  the UTF-8 encoding as a list of byte values.
* Go's `int` is 64 bits wide (`strconv.IntSize = 64`); `int` values are Lean
  `Int`s, and arithmetic that Go performs on `int`/`uint64` is wrapped
  explicitly (`wrapInt`, `wrapUint64`, `wrapByte`).
* A Go `panic` is `Except.error` carrying the panic value.
* Pointers to `Semantic`/`Application` are modelled by their pointees; a
  `nil` element of a `[]*Semantic` is `none`.
* A Go `map[uint]T` is an association list; the order of the list is the
  order in which `range` visits the entries.
-/

namespace Version

/-! ## Go runtime and `strconv` -/

deriving instance DecidableEq for Except

/-- The bytes of a Go string: the UTF-8 encoding, one `Nat` per byte. -/
def goBytes (s : String) : List Nat :=
  (s.data.flatMap String.utf8EncodeChar).map UInt8.toNat

/-- Width of Go's `int` on the modelled platform (`strconv.IntSize`). -/
def intSize : Nat := 64

/-- Two's-complement wrap-around of a mathematical integer into `int`. -/
def wrapInt (x : Int) : Int :=
  (x + 2 ^ (intSize - 1)) % 2 ^ intSize - 2 ^ (intSize - 1)

/-- Wrap-around of a natural number into `uint64`. -/
def wrapUint64 (x : Nat) : Nat := x % 2 ^ 64

/-- Wrap-around of a natural number into a `byte`. -/
def wrapByte (x : Nat) : Nat := x % 256

/-- The two kinds of `strconv.NumError` that `Atoi` can report:
`strconv.ErrSyntax` and `strconv.ErrRange`. -/
inductive NumError where
  | invalid
  | outOfRange
  deriving DecidableEq, Repr

/-- The digit loop of the fast path of `strconv.Atoi`:
`for _, ch := range []byte(s) { ch -= '0'; if ch > 9 { return 0, syntaxError };
n = n*10 + int(ch) }`. -/
def atoiFastLoop : List Nat → Int → Except NumError Int
  | [], n => .ok n
  | ch :: rest, n =>
    let ch := wrapByte (ch + 256 - 48)
    if ch > 9 then .error .invalid
    else atoiFastLoop rest (wrapInt (n * 10 + (ch : Int)))

/-- The fast path of `strconv.Atoi`, taken when `0 < len(s) < 19`: an optional
sign, then the digit loop, then the negation for a leading `-`. -/
def atoiFast (s0 : List Nat) : Except NumError Int :=
  let s := if s0.head? = some 45 ∨ s0.head? = some 43 then s0.tail else s0
  if (s0.head? = some 45 ∨ s0.head? = some 43) ∧ s.length < 1 then .error .invalid
  else
    match atoiFastLoop s 0 with
    | .error e => .error e
    | .ok n => if s0.head? = some 45 then .ok (wrapInt (-n)) else .ok n

/-- The function `lower` of `strconv`: `c | ('x' - 'X')`. -/
def lower (c : Nat) : Nat := c ||| 0x20

/-- The constant `maxUint64` of `strconv`. -/
def maxUint64 : Nat := 2 ^ 64 - 1

/-- The digit loop of `strconv.ParseUint(s, 10, 0)`, with `base = 10`,
`cutoff = maxUint64/10 + 1` and `maxVal = 1<<64 - 1`.  The result is the pair
`(value, error)` that Go returns; `base0` is false, so `_` is not skipped. -/
def parseUintLoop : List Nat → Nat → Nat × Option NumError
  | [], n => (n, none)
  | c :: rest, n =>
    let d? : Option Nat :=
      if 48 ≤ c ∧ c ≤ 57 then some (c - 48)
      else if 97 ≤ lower c ∧ lower c ≤ 122 then some (wrapByte (lower c - 97 + 10))
      else none
    match d? with
    | none => (0, some .invalid)
    | some d =>
      if d ≥ 10 then (0, some .invalid)
      else if n ≥ maxUint64 / 10 + 1 then (maxUint64, some .outOfRange)
      else
        let n := wrapUint64 (n * 10)
        let n1 := wrapUint64 (n + d)
        if n1 < n ∨ n1 > maxUint64 then (maxUint64, some .outOfRange)
        else parseUintLoop rest n1

/-- The call `strconv.ParseUint(s, 10, 0)`. -/
def ParseUint (s : List Nat) : Nat × Option NumError :=
  if s = [] then (0, some .invalid) else parseUintLoop s 0

/-- The call `strconv.ParseInt(s, 10, 0)`: sign, `ParseUint`, then the range
check against `cutoff = 1 << (IntSize-1)`. -/
def ParseInt (s0 : List Nat) : Except NumError Int :=
  if s0 = [] then .error .invalid
  else
    let neg := decide (s0.head? ≠ some 43 ∧ s0.head? = some 45)
    let s := if s0.head? = some 43 then s0.tail
             else if s0.head? = some 45 then s0.tail else s0
    let r := ParseUint s
    if r.2 = some .invalid then .error .invalid
    else
      let un := r.1
      let cutoff : Nat := 2 ^ (intSize - 1)
      if ¬ neg ∧ un ≥ cutoff then .error .outOfRange
      else if neg ∧ un > cutoff then .error .outOfRange
      else
        let n : Int := wrapInt un
        if neg then .ok (wrapInt (-n)) else .ok n

/-- The function `strconv.Atoi`: the fast path for `0 < len(s) < 19`, else
`ParseInt(s, 10, 0)`.  The value returned next to a non-nil error is dropped,
since `init` never reads it. -/
def Atoi (s : String) : Except NumError Int :=
  let b := goBytes s
  if 0 < b.length ∧ b.length < 19 then atoiFast b else ParseInt b

/-! ## Data model -/

/-- The type `Semantic`: the three `int` fields that `init` fills in. -/
structure Semantic where
  Major : Int
  Minor : Int
  Patch : Int
  deriving DecidableEq, Repr

/-- The type `Application`: a client name and the three `int` fields. -/
structure Application where
  Name : String
  Major : Int
  Minor : Int
  Patch : Int
  deriving DecidableEq, Repr

/-- A Go `map[uint]T`, as the list of its entries. -/
abbrev GoMap (α : Type) := List (Nat × α)

/-- The read `m[k]` with the comma-ok form: `none` when the key is absent. -/
def GoMap.get {α : Type} (m : GoMap α) (k : Nat) : Option α := List.lookup k m

/-- The assignment `m[k] = v`: any older entry under `k` is replaced. -/
def GoMap.set {α : Type} (m : GoMap α) (k : Nat) (v : α) : GoMap α :=
  (k, v) :: m.filter (fun e => e.1 ≠ k)

/-- The value handed to `panic`: a string, or an `error`. -/
inductive PanicValue (ε : Type) where
  | str (s : String)
  | err (e : ε)
  deriving DecidableEq, Repr

/-- An instant, the model of `time.Time`: a number of time units since a
fixed epoch. -/
abbrev Time := Int

/-! ## Constants and package-level variables of `constants.go` -/

/-- The constant `Client`. -/
def Client : String := "luxd"

/-- The constant `RPCChainVMProtocol`. -/
def RPCChainVMProtocol : Nat := 42

/-- The variable `MinimumCompatibleVersion`. -/
def MinimumCompatibleVersion : Application :=
  { Name := Client, Major := 1, Minor := 13, Patch := 0 }

/-- The variable `PrevMinimumCompatibleVersion`. -/
def PrevMinimumCompatibleVersion : Application :=
  { Name := Client, Major := 1, Minor := 12, Patch := 0 }

/-- The variable `DatabaseVersion1_4_5`. -/
def DatabaseVersion1_4_5 : Semantic := { Major := 1, Minor := 4, Patch := 5 }

/-- The variable `DatabaseVersion1_0_0`. -/
def DatabaseVersion1_0_0 : Semantic := { Major := 1, Minor := 0, Patch := 0 }

/-- The variable `CurrentDatabase`. -/
def CurrentDatabase : Semantic := DatabaseVersion1_4_5

/-- The variable `PrevDatabase`. -/
def PrevDatabase : Semantic := DatabaseVersion1_0_0

/-- The constant `defaultMajor`. -/
def defaultMajor : Int := 1

/-- The constant `defaultMinor`. -/
def defaultMinor : Int := 22

/-- The constant `defaultPatch`. -/
def defaultPatch : Int := 75

/-- The package-level variables that `init` assigns: `Current`, `CurrentApp`
and `RPCChainVMProtocolCompatibility`. -/
structure Globals where
  Current : Semantic
  CurrentApp : Application
  RPCChainVMProtocolCompatibility : GoMap (List (Option Semantic))
  deriving DecidableEq, Repr

/-! ## `init` -/

/-- Lines 86-128 of `init`: the three injected strings are converted with
`strconv.Atoi` (or replaced by the defaults when empty), then `Current` and
`CurrentApp` are assigned. -/
def initVersion {ε : Type} (VersionMajor VersionMinor VersionPatch : String) :
    Except (PanicValue ε) (Semantic × Application) :=
  let major : Except (PanicValue ε) Int :=
    if VersionMajor ≠ "" then
      match Atoi VersionMajor with
      | .error _ => .error (.str ("invalid VersionMajor: " ++ VersionMajor))
      | .ok v => .ok v
    else .ok defaultMajor
  match major with
  | .error p => .error p
  | .ok major =>
    let minor : Except (PanicValue ε) Int :=
      if VersionMinor ≠ "" then
        match Atoi VersionMinor with
        | .error _ => .error (.str ("invalid VersionMinor: " ++ VersionMinor))
        | .ok v => .ok v
      else .ok defaultMinor
    match minor with
    | .error p => .error p
    | .ok minor =>
      let patch : Except (PanicValue ε) Int :=
        if VersionPatch ≠ "" then
          match Atoi VersionPatch with
          | .error _ => .error (.str ("invalid VersionPatch: " ++ VersionPatch))
          | .ok v => .ok v
        else .ok defaultPatch
      match patch with
      | .error p => .error p
      | .ok patch =>
        let Current : Semantic := { Major := major, Minor := minor, Patch := patch }
        let CurrentApp : Application :=
          { Name := Client, Major := Current.Major, Minor := Current.Minor,
            Patch := Current.Patch }
        .ok (Current, CurrentApp)

/-- Lines 139-145 of `init`: the loop `for i, versionString := range
versionStrings`, which stores `Parse(versionString)` at `versions[i]` and
panics with the error of the first string that `Parse` rejects.  `Parse` is
the package's parser, a parameter here; `i` stays below `len(versions)`, so
the indexed store never goes out of range. -/
def parseVersionStrings {ε : Type} (Parse : String → Except ε Semantic) :
    List String → Nat → List (Option Semantic) →
      Except (PanicValue ε) (List (Option Semantic))
  | [], _, versions => .ok versions
  | versionString :: rest, i, versions =>
    match Parse versionString with
    | .error err => .error (.err err)
    | .ok version => parseVersionStrings Parse rest (i + 1) (versions.set i (some version))

/-- Lines 137-147 of `init`: the loop over the entries of the decoded map.
For each entry, `versions := make([]*Semantic, len(versionStrings))` is
filled by the inner loop and stored under the entry's key. -/
def loadTable {ε : Type} (Parse : String → Except ε Semantic) :
    GoMap (List String) → GoMap (List (Option Semantic)) →
      Except (PanicValue ε) (GoMap (List (Option Semantic)))
  | [], table => .ok table
  | (rpcChainVMProtocol, versionStrings) :: rest, table =>
    match parseVersionStrings Parse versionStrings 0
        (List.replicate versionStrings.length none) with
    | .error p => .error p
    | .ok versions => loadTable Parse rest (table.set rpcChainVMProtocol versions)

/-- Lines 130-147 of `init`: `decoded` is the outcome of `json.Unmarshal` on
the embedded `compatibility.json`; an error there is a panic, otherwise the
table is built from an empty map. -/
def initTable {ε : Type} (Parse : String → Except ε Semantic)
    (decoded : Except ε (GoMap (List String))) :
    Except (PanicValue ε) (GoMap (List (Option Semantic))) :=
  match decoded with
  | .error err => .error (.err err)
  | .ok parsedRPCChainVMCompatibility => loadTable Parse parsedRPCChainVMCompatibility []

/-- The function `init`: the version stage, then the table stage.  It
either panics or leaves the package-level variables assigned. -/
def init {ε : Type} (VersionMajor VersionMinor VersionPatch : String)
    (decoded : Except ε (GoMap (List String)))
    (Parse : String → Except ε Semantic) : Except (PanicValue ε) Globals :=
  match initVersion VersionMajor VersionMinor VersionPatch with
  | .error p => .error p
  | .ok (Current, CurrentApp) =>
    match initTable Parse decoded with
    | .error p => .error p
    | .ok table =>
      .ok { Current := Current, CurrentApp := CurrentApp,
            RPCChainVMProtocolCompatibility := table }

/-! ## The compatibility checker -/

/-- Modelled from the spec: the type `Compatibility` is not part of
`constants.go`; the checker is the immutable record of its four
construction arguments. -/
structure Compatibility where
  current : Application
  minCompatible : Application
  minCompatibleTime : Time
  prevMinCompatible : Application
  deriving DecidableEq, Repr

/-- Modelled from the spec: the constructor `NewCompatibility` is not part of
`constants.go`; it is `new(current, minCompatible, minCompatibleTime,
prevMinCompatible)`, a pure data holder that performs no validation. -/
def NewCompatibility (current minCompatible : Application) (minCompatibleTime : Time)
    (prevMinCompatible : Application) : Compatibility :=
  { current := current, minCompatible := minCompatible,
    minCompatibleTime := minCompatibleTime, prevMinCompatible := prevMinCompatible }

/-- The function `GetCompatibility`, reading `CurrentApp` from the
package-level variables. -/
def GetCompatibility (g : Globals) (minCompatibleTime : Time) : Compatibility :=
  NewCompatibility
    g.CurrentApp
    MinimumCompatibleVersion
    minCompatibleTime
    PrevMinimumCompatibleVersion

/-- Modelled from the spec: the comparison of versions is not part of
`constants.go`; it is lexicographic on (major, minor, patch). -/
def Application.Compare (a b : Application) : Ordering :=
  if a.Major < b.Major then .lt
  else if a.Major > b.Major then .gt
  else if a.Minor < b.Minor then .lt
  else if a.Minor > b.Minor then .gt
  else if a.Patch < b.Patch then .lt
  else if a.Patch > b.Patch then .gt
  else .eq

/-- The relation `a <= b` of the lexicographic order. -/
def Application.le (a b : Application) : Prop := a.Compare b ≠ .gt

/-- The relation `a < b` of the lexicographic order. -/
def Application.lt (a b : Application) : Prop := a.Compare b = .lt

instance (a b : Application) : Decidable (a.le b) :=
  inferInstanceAs (Decidable (a.Compare b ≠ .gt))

instance (a b : Application) : Decidable (a.lt b) :=
  inferInstanceAs (Decidable (a.Compare b = .lt))

/-- Modelled from the spec: the reason carried by an `Incompatible` result,
either "different client identity" or "version below minimum compatible
floor" together with the effective floor. -/
inductive Reason where
  | differentClient
  | belowFloor (floor : Application)
  deriving DecidableEq, Repr

/-- Modelled from the spec: the result of `checkCompatible`. -/
inductive Verdict where
  | Compatible
  | Incompatible (reason : Reason)
  deriving DecidableEq, Repr

/-- Modelled from the spec: the effective floor is `prevMinCompatible` when
`now` is before `minCompatibleTime`, otherwise `minCompatible`. -/
def effectiveFloor (c : Compatibility) (now : Time) : Application :=
  if now < c.minCompatibleTime then c.prevMinCompatible else c.minCompatible

/-- Modelled from the spec: the decision operation of the checker, which is
not part of `constants.go`.  A peer is compatible iff its name is the name of
`current` and its version is not less than the effective floor. -/
def checkCompatible (c : Compatibility) (peerVersion : Application) (now : Time) : Verdict :=
  if peerVersion.Name ≠ c.current.Name then .Incompatible .differentClient
  else if peerVersion.Compare (effectiveFloor c now) = .lt then
    .Incompatible (.belowFloor (effectiveFloor c now))
  else .Compatible

/-! ## The parser, from the specification -/

/-- Modelled from the spec: the error `MalformedVersionError`, which
identifies the offending text. -/
structure MalformedVersionError where
  text : String
  deriving DecidableEq, Repr

/-- The segments of a text between the delimiter `.`. -/
def splitSegments : List Char → List (List Char)
  | [] => [[]]
  | c :: cs =>
    match splitSegments cs with
    | [] => [[]]
    | seg :: segs => if c = '.' then [] :: seg :: segs else (c :: seg) :: segs

/-- The value of a segment that is a non-empty run of decimal digits. -/
def segmentValue (seg : List Char) : Option Int :=
  if seg ≠ [] ∧ seg.all (fun c => decide ('0' ≤ c ∧ c ≤ '9')) then
    some (seg.foldl (fun acc c => acc * 10 + ((c.toNat - 48 : Nat) : Int)) 0)
  else none

/-- Modelled from the spec: `Parse` is not part of `constants.go`; it splits
the text on `.` into exactly three segments, each a non-negative decimal
integer without sign, and fails with `MalformedVersionError` otherwise. -/
def Parse (text : String) : Except MalformedVersionError Semantic :=
  match (splitSegments text.data).map segmentValue with
  | [some major, some minor, some patch] =>
    .ok { Major := major, Minor := minor, Patch := patch }
  | _ => .error { text := text }

/-! ## The reading of "base-10 integer" used by the specification -/

/-- A byte that is a decimal digit, `'0'` to `'9'`. -/
def isDigitByte (b : Nat) : Bool := decide (48 ≤ b ∧ b ≤ 57)

/-- The number written by a run of digit bytes, by positional weight. -/
def digitsValue : List Nat → Nat
  | [] => 0
  | d :: ds => (d - 48) * 10 ^ ds.length + digitsValue ds

/-- The digits of a numeral: the bytes after an optional leading sign. -/
def unsignedPart (bs : List Nat) : List Nat :=
  if bs.head? = some 45 ∨ bs.head? = some 43 then bs.tail else bs

/-- The base-10 integer value of a byte string: an optional sign `+` or `-`
followed by at least one decimal digit; `none` when the string is not of
that shape. -/
def decimalValue (bs : List Nat) : Option Int :=
  if unsignedPart bs ≠ [] ∧ (unsignedPart bs).all isDigitByte then
    if bs.head? = some 45 then some (-(digitsValue (unsignedPart bs) : Int))
    else some (digitsValue (unsignedPart bs) : Int)
  else none

/-- The range of Go's `int`. -/
def inIntRange (n : Int) : Prop := -(2 : Int) ^ 63 ≤ n ∧ n < (2 : Int) ^ 63

instance (n : Int) : Decidable (inIntRange n) :=
  inferInstanceAs (Decidable (-(2 : Int) ^ 63 ≤ n ∧ n < (2 : Int) ^ 63))

/-- A string that is a base-10 integer, whatever its size. -/
def isDecimal (s : String) : Prop := decimalValue (goBytes s) ≠ none

instance (s : String) : Decidable (isDecimal s) :=
  inferInstanceAs (Decidable (decimalValue (goBytes s) ≠ none))

/-- A string that is a base-10 integer whose value fits Go's `int`. -/
def isDecimalInt (s : String) : Prop :=
  decimalValue (goBytes s) ≠ none ∧ inIntRange ((decimalValue (goBytes s)).getD 0)

instance (s : String) : Decidable (isDecimalInt s) :=
  inferInstanceAs (Decidable (decimalValue (goBytes s) ≠ none ∧
    inIntRange ((decimalValue (goBytes s)).getD 0)))

/-- An injected string that is present and is not a base-10 integer that
fits Go's `int`. -/
def offending (s : String) : Prop := s ≠ "" ∧ ¬ isDecimalInt s

instance (s : String) : Decidable (offending s) :=
  inferInstanceAs (Decidable (s ≠ "" ∧ ¬ isDecimalInt s))

/-- The value `init` gives to one component of `Current`: the default when
the injected string is empty, else the result of `Atoi`. -/
def componentIs (s : String) (dflt x : Int) : Prop :=
  (s = "" ∧ x = dflt) ∨ (s ≠ "" ∧ Atoi s = .ok x)

/-- The example source of the compatibility table: the single protocol
revision 42 with the version strings "1.22.0" and "1.22.1". -/
def exampleSource : GoMap (List String) := [(42, ["1.22.0", "1.22.1"])]

/-- The outcome of `Parse` as an element of a `[]*Semantic`. -/
def parsed {ε : Type} (Parse : String → Except ε Semantic) (s : String) : Option Semantic :=
  match Parse s with
  | .ok v => some v
  | .error _ => none

/-! ## `strconv.Atoi` accepts exactly the base-10 integers that fit `int` -/


theorem goBytes_lt (s : String) : ∀ b ∈ goBytes s, b < 256 := by
  intro b hb
  simp only [goBytes, List.mem_map] at hb
  obtain ⟨x, _, rfl⟩ := hb
  exact x.val.isLt

theorem digitsValue_lt (ds : List Nat) (h : ds.all isDigitByte = true) :
    digitsValue ds < 10 ^ ds.length := by
  induction ds with
  | nil => simp [digitsValue]
  | cons d ds ih =>
    simp only [List.all_cons, Bool.and_eq_true, isDigitByte, decide_eq_true_eq] at h
    have h1 := ih h.2
    simp only [digitsValue, List.length_cons, pow_succ]
    have h2 : d - 48 ≤ 9 := by omega
    nlinarith [Nat.mul_le_mul_right (10 ^ ds.length) h2]

theorem wrapInt_of_inRange (x : Int) (h1 : -(2:Int)^63 ≤ x) (h2 : x < (2:Int)^63) : wrapInt x = x := by
  unfold wrapInt intSize
  norm_num at h1 h2 ⊢
  omega

theorem atoiFastLoop_digits (bs : List Nat) (n : Int) (hd : bs.all isDigitByte = true)
    (h0 : 0 ≤ n) (hlt : n * 10 ^ bs.length + (digitsValue bs : Int) < 2 ^ 63) :
    atoiFastLoop bs n = .ok (n * 10 ^ bs.length + (digitsValue bs : Int)) := by
  induction bs generalizing n with
  | nil => simp [atoiFastLoop, digitsValue]
  | cons d ds ih =>
    simp only [List.all_cons, Bool.and_eq_true, isDigitByte, decide_eq_true_eq] at hd
    have hdv := digitsValue_lt ds hd.2
    have hw : wrapByte (d + 256 - 48) = d - 48 := by unfold wrapByte; omega
    simp only [digitsValue, List.length_cons, pow_succ] at hlt ⊢
    push_cast at hlt ⊢
    have hpos : (0:Int) < 10 ^ ds.length := by positivity
    have hx : n * 10 + ((d - 48 : Nat) : Int) < 2 ^ 63 := by
      by_contra hc
      push_neg at hc
      have : (2:Int)^63 * 10 ^ ds.length ≤ (n * 10 + ((d - 48 : Nat) : Int)) * 10 ^ ds.length :=
        mul_le_mul_of_nonneg_right hc hpos.le
      have h3 : (2:Int)^63 ≤ 2^63 * 10 ^ ds.length := by nlinarith
      nlinarith
    have hx0 : 0 ≤ n * 10 + ((d - 48 : Nat) : Int) := by positivity
    rw [atoiFastLoop]
    simp only [hw]
    rw [if_neg (by omega)]
    rw [wrapInt_of_inRange _ (by norm_num; omega) hx]
    rw [ih _ hd.2 hx0 (by push_cast; nlinarith)]
    congr 1
    ring

theorem atoiFastLoop_nondigit (bs : List Nat) (n : Int) (hb : ∀ b ∈ bs, b < 256)
    (hd : bs.all isDigitByte = false) : atoiFastLoop bs n = .error .invalid := by
  induction bs generalizing n with
  | nil => simp at hd
  | cons d ds ih =>
    have hd256 := hb d (by simp)
    rw [atoiFastLoop]
    by_cases hdig : 48 ≤ d ∧ d ≤ 57
    · have hw : wrapByte (d + 256 - 48) = d - 48 := by unfold wrapByte; omega
      simp only [hw]
      rw [if_neg (by omega)]
      apply ih
      · intro b hb2; exact hb b (by simp [hb2])
      · simpa [isDigitByte, hdig] using hd
    · have hw : wrapByte (d + 256 - 48) > 9 := by unfold wrapByte; omega
      exact if_pos hw


theorem parseUintLoop_nondigit_head (c : Nat) (rest : List Nat) (n : Nat)
    (hc : ¬ (48 ≤ c ∧ c ≤ 57)) : parseUintLoop (c :: rest) n = (0, some .invalid) := by
  rw [parseUintLoop]
  simp only [if_neg hc]
  by_cases hl : 97 ≤ lower c ∧ lower c ≤ 122
  · simp only [if_pos hl]
    have : wrapByte (lower c - 97 + 10) ≥ 10 := by unfold wrapByte; omega
    simp only [if_pos this]
  · simp only [if_neg hl]

theorem parseUintLoop_digit_head (c : Nat) (rest : List Nat) (n : Nat)
    (hc : 48 ≤ c ∧ c ≤ 57) (hn : n ≤ maxUint64) :
    parseUintLoop (c :: rest) n =
      if n * 10 + (c - 48) ≤ maxUint64 then parseUintLoop rest (n * 10 + (c - 48))
      else (maxUint64, some .outOfRange) := by
  rw [parseUintLoop]
  simp only [if_pos hc]
  have hd : ¬ (c - 48 ≥ 10) := by omega
  simp only [if_neg hd]
  unfold maxUint64 at hn ⊢
  norm_num at hn ⊢
  by_cases hcut : 1844674407370955162 ≤ n
  · rw [if_pos hcut, if_neg (by omega)]
  · rw [if_neg hcut]
    have h10 : wrapUint64 (n * 10) = n * 10 := by unfold wrapUint64; omega
    rw [h10]
    by_cases hov : n * 10 + (c - 48) ≤ 18446744073709551615
    · have h1 : wrapUint64 (n * 10 + (c - 48)) = n * 10 + (c - 48) := by
        unfold wrapUint64; omega
      rw [h1, if_neg (by omega), if_pos hov]
    · have h1 : wrapUint64 (n * 10 + (c - 48)) < n * 10 := by
        unfold wrapUint64; omega
      rw [if_pos (Or.inl h1), if_neg hov]

theorem parseUintLoop_digits (bs : List Nat) (n : Nat) (hd : bs.all isDigitByte = true)
    (hn : n ≤ maxUint64) :
    parseUintLoop bs n =
      if n * 10 ^ bs.length + digitsValue bs ≤ maxUint64
      then (n * 10 ^ bs.length + digitsValue bs, none)
      else (maxUint64, some .outOfRange) := by
  induction bs generalizing n with
  | nil => simp [parseUintLoop, digitsValue, hn]
  | cons d ds ih =>
    simp only [List.all_cons, Bool.and_eq_true, isDigitByte, decide_eq_true_eq] at hd
    rw [parseUintLoop_digit_head d ds n hd.1 hn]
    have hpos : 0 < 10 ^ ds.length := by positivity
    have e : n * 10 ^ (d :: ds).length + digitsValue (d :: ds)
        = (n * 10 + (d - 48)) * 10 ^ ds.length + digitsValue ds := by
      simp only [digitsValue, List.length_cons, pow_succ]; ring
    rw [e]
    by_cases h1 : n * 10 + (d - 48) ≤ maxUint64
    · rw [if_pos h1, ih _ hd.2 h1]
    · rw [if_neg h1, if_neg]
      have : n * 10 + (d - 48) ≤ (n * 10 + (d - 48)) * 10 ^ ds.length :=
        Nat.le_mul_of_pos_right _ hpos
      omega

theorem parseUintLoop_nondigit (bs : List Nat) (n : Nat) (hd : bs.all isDigitByte = false)
    (hn : n ≤ maxUint64) :
    parseUintLoop bs n = (0, some .invalid) ∨ parseUintLoop bs n = (maxUint64, some .outOfRange) := by
  induction bs generalizing n with
  | nil => simp at hd
  | cons d ds ih =>
    by_cases hdig : 48 ≤ d ∧ d ≤ 57
    · rw [parseUintLoop_digit_head d ds n hdig hn]
      by_cases h1 : n * 10 + (d - 48) ≤ maxUint64
      · rw [if_pos h1]
        apply ih _ _ h1
        simpa [isDigitByte, hdig] using hd
      · rw [if_neg h1]; exact Or.inr rfl
    · exact Or.inl (parseUintLoop_nondigit_head d ds n hdig)


theorem ParseUint_digits (u : List Nat) (hne : u ≠ []) (hd : u.all isDigitByte = true) :
    ParseUint u = if digitsValue u ≤ maxUint64 then (digitsValue u, none)
      else (maxUint64, some .outOfRange) := by
  unfold ParseUint
  rw [if_neg hne, parseUintLoop_digits u 0 hd (Nat.zero_le _)]
  simp

theorem ParseUint_malformed (u : List Nat) (h : u = [] ∨ u.all isDigitByte = false) :
    ParseUint u = (0, some .invalid) ∨ ParseUint u = (maxUint64, some .outOfRange) := by
  unfold ParseUint
  by_cases hne : u = []
  · rw [if_pos hne]; exact Or.inl rfl
  · rw [if_neg hne]
    rcases h with h | h
    · exact absurd h hne
    · exact parseUintLoop_nondigit u 0 h (Nat.zero_le _)

theorem unsignedPart_eq (b : List Nat) :
    (if b.head? = some 43 then b.tail else if b.head? = some 45 then b.tail else b)
      = unsignedPart b := by
  unfold unsignedPart
  by_cases h1 : b.head? = some 43
  · simp [h1]
  · by_cases h2 : b.head? = some 45
    · simp [h2]
    · simp [h1, h2]

theorem ParseInt_malformed (b : List Nat)
    (h : unsignedPart b = [] ∨ (unsignedPart b).all isDigitByte = false) :
    ∃ e, ParseInt b = .error e := by
  unfold ParseInt
  by_cases hb : b = []
  · exact ⟨_, if_pos hb⟩
  · rw [if_neg hb]
    simp only [unsignedPart_eq]
    rcases ParseUint_malformed _ h with hr | hr
    · rw [hr]; exact ⟨_, if_pos rfl⟩
    · rw [hr]
      simp only [maxUint64, intSize]
      by_cases hneg : b.head? = some 45 <;> simp [hneg]

theorem ParseInt_digits (b : List Nat) (hne : unsignedPart b ≠ [])
    (hd : (unsignedPart b).all isDigitByte = true) :
    ParseInt b =
      if b.head? = some 45 then
        (if digitsValue (unsignedPart b) ≤ 2 ^ 63
          then .ok (-(digitsValue (unsignedPart b) : Int)) else .error .outOfRange)
      else
        (if digitsValue (unsignedPart b) < 2 ^ 63
          then .ok (digitsValue (unsignedPart b) : Int) else .error .outOfRange) := by
  have hb : b ≠ [] := by
    intro h; subst h; simp [unsignedPart] at hne
  unfold ParseInt
  rw [if_neg hb]
  simp only [unsignedPart_eq]
  rw [ParseUint_digits _ hne hd]
  generalize digitsValue (unsignedPart b) = v
  by_cases hv : v ≤ maxUint64
  · rw [if_pos hv]
    simp only [maxUint64, intSize, wrapInt] at hv ⊢
    norm_num at hv
    by_cases hneg : b.head? = some 45
    · by_cases hv2 : v ≤ 9223372036854775808
      · have h3 : ¬ 9223372036854775808 < v := by omega
        simp [hneg, hv2, h3]
        omega
      · have h3 : 9223372036854775808 < v := by omega
        simp [hneg, hv2, h3]
    · by_cases hv2 : v < 9223372036854775808
      · have h3 : ¬ 9223372036854775808 ≤ v := by omega
        simp [hneg, hv2, h3]
        omega
      · have h3 : 9223372036854775808 ≤ v := by omega
        simp [hneg, hv2, h3]
  · rw [if_neg hv]
    simp only [maxUint64, intSize] at hv ⊢
    norm_num at hv
    have h3 : ¬ v ≤ 9223372036854775808 := by omega
    have h4 : ¬ v < 9223372036854775808 := by omega
    by_cases hneg : b.head? = some 45
    · simp [hneg, h3]
    · simp [hneg, h4]


theorem unsignedPart_length_le (b : List Nat) : (unsignedPart b).length ≤ b.length := by
  unfold unsignedPart
  split
  · simp
  · exact le_refl _

theorem unsignedPart_mem (b : List Nat) : ∀ x ∈ unsignedPart b, x ∈ b := by
  unfold unsignedPart
  split
  · intro x hx; exact List.mem_of_mem_tail hx
  · intro x hx; exact hx

theorem atoiFast_digits (b : List Nat) (hlen : b.length < 19) (hne : unsignedPart b ≠ [])
    (hd : (unsignedPart b).all isDigitByte = true) :
    atoiFast b = .ok (if b.head? = some 45 then -(digitsValue (unsignedPart b) : Int)
      else (digitsValue (unsignedPart b) : Int)) := by
  have hul := unsignedPart_length_le b
  have hdv := digitsValue_lt _ hd
  have hpow : 10 ^ (unsignedPart b).length ≤ 10 ^ 18 :=
    Nat.pow_le_pow_right (by norm_num) (by omega)
  have hbound : (digitsValue (unsignedPart b) : Int) < 10 ^ 18 := by
    have : digitsValue (unsignedPart b) < 10 ^ 18 := lt_of_lt_of_le hdv hpow
    exact_mod_cast this
  have hloop := atoiFastLoop_digits (unsignedPart b) 0 hd (le_refl _)
    (by simp only [zero_mul, zero_add]; norm_num at hbound ⊢; omega)
  simp only [zero_mul, zero_add] at hloop
  have hlen1 : ¬ (unsignedPart b).length < 1 := by
    intro h
    exact hne (List.length_eq_zero.mp (by omega))
  unfold atoiFast
  simp only [show (if b.head? = some 45 ∨ b.head? = some 43 then b.tail else b)
    = unsignedPart b from rfl]
  rw [if_neg (fun h => hlen1 h.2), hloop]
  simp only
  by_cases hneg : b.head? = some 45
  · rw [if_pos hneg, if_pos hneg, wrapInt_of_inRange]
    · norm_num at hbound ⊢; omega
    · norm_num at hbound ⊢; omega
  · rw [if_neg hneg, if_neg hneg]

theorem atoiFast_malformed (b : List Nat) (hb : ∀ x ∈ b, x < 256) (hne : b ≠ [])
    (h : unsignedPart b = [] ∨ (unsignedPart b).all isDigitByte = false) :
    atoiFast b = .error .invalid := by
  unfold atoiFast
  simp only [show (if b.head? = some 45 ∨ b.head? = some 43 then b.tail else b)
    = unsignedPart b from rfl]
  by_cases hu : unsignedPart b = []
  · have hs : b.head? = some 45 ∨ b.head? = some 43 := by
      by_contra hc
      simp only [unsignedPart, if_neg hc] at hu
      exact hne hu
    rw [if_pos ⟨hs, by simp [hu]⟩]
  · have hall : (unsignedPart b).all isDigitByte = false := by
      rcases h with h | h
      · exact absurd h hu
      · exact h
    have hloop := atoiFastLoop_nondigit (unsignedPart b) 0
      (fun x hx => hb x (unsignedPart_mem b x hx)) hall
    rw [hloop]
    split <;> rfl

/-- The function `Atoi` accepts exactly the strings that are base-10 integers
(optional sign, at least one digit) whose value fits Go's `int`, and returns
that value. -/
theorem Atoi_ok_iff (s : String) (n : Int) :
    Atoi s = .ok n ↔ decimalValue (goBytes s) = some n ∧ inIntRange n := by
  unfold Atoi
  simp only
  generalize hbdef : goBytes s = b
  have hb : ∀ x ∈ b, x < 256 := by rw [← hbdef]; exact goBytes_lt s
  by_cases hwf : unsignedPart b ≠ [] ∧ (unsignedPart b).all isDigitByte = true
  · have hdec : decimalValue b = some (if b.head? = some 45
        then -(digitsValue (unsignedPart b) : Int) else (digitsValue (unsignedPart b) : Int)) := by
      unfold decimalValue
      rw [if_pos hwf]
      split <;> rfl
    rw [hdec]
    by_cases hfast : 0 < b.length ∧ b.length < 19
    · rw [if_pos hfast, atoiFast_digits b hfast.2 hwf.1 hwf.2]
      have hul := unsignedPart_length_le b
      have hdv := digitsValue_lt _ hwf.2
      have hpow : 10 ^ (unsignedPart b).length ≤ 10 ^ 18 :=
        Nat.pow_le_pow_right (by norm_num) (by omega)
      have hbound : (digitsValue (unsignedPart b) : Int) < 10 ^ 18 := by
        have : digitsValue (unsignedPart b) < 10 ^ 18 := lt_of_lt_of_le hdv hpow
        exact_mod_cast this
      constructor
      · intro h
        have h := Except.ok.inj h
        refine ⟨by rw [h], ?_⟩
        rw [← h]
        unfold inIntRange
        split <;> (norm_num at hbound ⊢; omega)
      · rintro ⟨h, _⟩
        rw [Option.some.inj h]
    · rw [if_neg hfast, ParseInt_digits b hwf.1 hwf.2]
      generalize digitsValue (unsignedPart b) = v
      unfold inIntRange
      by_cases hneg : b.head? = some 45
      · simp only [if_pos hneg]
        by_cases hv : v ≤ 2 ^ 63
        · rw [if_pos hv]
          constructor
          · intro h
            have h := Except.ok.inj h
            refine ⟨by rw [h], ?_⟩
            rw [← h]; norm_num at hv ⊢; omega
          · rintro ⟨h, _⟩
            rw [Option.some.inj h]
        · rw [if_neg hv]
          constructor
          · intro h; cases h
          · rintro ⟨h, h1, _⟩
            have h := Option.some.inj h
            rw [← h] at h1
            norm_num at hv h1; omega
      · simp only [if_neg hneg]
        by_cases hv : v < 2 ^ 63
        · rw [if_pos hv]
          constructor
          · intro h
            have h := Except.ok.inj h
            refine ⟨by rw [h], ?_⟩
            rw [← h]; norm_num at hv ⊢; omega
          · rintro ⟨h, _⟩
            rw [Option.some.inj h]
        · rw [if_neg hv]
          constructor
          · intro h; cases h
          · rintro ⟨h, _, h2⟩
            have h := Option.some.inj h
            rw [← h] at h2
            norm_num at hv h2; omega
  · have hdec : decimalValue b = none := by
      unfold decimalValue
      rw [if_neg]
      simpa using hwf
    have hmal : unsignedPart b = [] ∨ (unsignedPart b).all isDigitByte = false := by
      by_cases hu : unsignedPart b = []
      · exact Or.inl hu
      · right
        cases hall : (unsignedPart b).all isDigitByte
        · rfl
        · exact absurd ⟨hu, hall⟩ hwf
    rw [hdec]
    constructor
    · intro h
      exfalso
      by_cases hfast : 0 < b.length ∧ b.length < 19
      · rw [if_pos hfast, atoiFast_malformed b hb (by intro h0; simp [h0] at hfast) hmal] at h
        cases h
      · rw [if_neg hfast] at h
        obtain ⟨e, he⟩ := ParseInt_malformed b hmal
        rw [he] at h
        cases h
    · rintro ⟨h, _⟩
      cases h

/-! ## The table loader -/


theorem GoMap.get_set {α : Type} (m : GoMap α) (k k2 : Nat) (v : α) :
    (m.set k v).get k2 = if k2 = k then some v else m.get k2 := by
  unfold GoMap.set GoMap.get
  by_cases h : k2 = k
  · subst h; simp [List.lookup]
  · rw [if_neg h]
    have hb : (k2 == k) = false := by simpa using h
    simp only [List.lookup, hb]
    induction m with
    | nil => simp
    | cons e m ih =>
      obtain ⟨a, b⟩ := e
      by_cases ha : a = k
      · subst ha
        simpa [List.filter, List.lookup, hb] using ih
      · by_cases hk : k2 = a
        · subst hk
          simp [List.filter, ha, List.lookup]
        · have hb2 : (k2 == a) = false := by simpa using hk
          simpa [List.filter, ha, List.lookup, hb2] using ih

theorem GoMap.mem_set {α : Type} (m : GoMap α) (k : Nat) (v : α) (e : Nat × α)
    (h : e ∈ m.set k v) : e = (k, v) ∨ e ∈ m := by
  unfold GoMap.set at h
  rcases List.mem_cons.mp h with h | h
  · exact Or.inl h
  · exact Or.inr (List.mem_filter.mp h).1

theorem take_succ_set {α : Type} (l : List α) (i : Nat) (a : α) (h : i < l.length) :
    (l.set i a).take (i + 1) = l.take i ++ [a] := by
  induction l generalizing i with
  | nil => simp at h
  | cons x xs ih =>
    cases i with
    | zero => simp
    | succ j =>
      simp only [List.length_cons, Nat.succ_lt_succ_iff] at h
      simp [List.set, List.take, ih j h]

theorem parseVersionStrings_ok {ε : Type} (Parse : String → Except ε Semantic) (strs : List String) (i : Nat) (versions : List (Option Semantic))
    (hlen : versions.length = i + strs.length)
    (hall : ∀ s ∈ strs, ∃ v, Parse s = .ok v) :
    parseVersionStrings Parse strs i versions
      = .ok (versions.take i ++ strs.map (parsed Parse)) := by
  induction strs generalizing i versions with
  | nil =>
    simp only [List.length_nil, Nat.add_zero] at hlen
    simp [parseVersionStrings, ← hlen]
  | cons s rest ih =>
    obtain ⟨v, hv⟩ := hall s (by simp)
    simp only [List.length_cons] at hlen
    rw [parseVersionStrings]
    simp only [hv]
    rw [ih (i + 1) _ (by simp; omega) (fun s2 hs2 => hall s2 (by simp [hs2]))]
    rw [take_succ_set _ _ _ (by omega)]
    simp [parsed, hv]

theorem parseVersionStrings_error {ε : Type} (Parse : String → Except ε Semantic) (strs : List String) (i : Nat)
    (versions : List (Option Semantic))
    (hbad : ∃ s ∈ strs, ∃ e, Parse s = .error e) :
    ∃ s ∈ strs, ∃ e, Parse s = .error e ∧
      parseVersionStrings Parse strs i versions = .error (.err e) := by
  induction strs generalizing i versions with
  | nil => simp at hbad
  | cons s rest ih =>
    rw [parseVersionStrings]
    cases hs : Parse s with
    | error e => exact ⟨s, by simp, e, hs, rfl⟩
    | ok v =>
      have hbad2 : ∃ s2 ∈ rest, ∃ e, Parse s2 = .error e := by
        obtain ⟨s2, hs2, e, he⟩ := hbad
        rcases List.mem_cons.mp hs2 with h | h
        · subst h; rw [hs] at he; cases he
        · exact ⟨s2, h, e, he⟩
      obtain ⟨s2, hs2, e, he, hr⟩ := ih (i + 1) (versions.set i (some v)) hbad2
      exact ⟨s2, by simp [hs2], e, he, hr⟩

theorem parse_total_or_error {ε : Type} (Parse : String → Except ε Semantic) (strs : List String) :
    (∀ s ∈ strs, ∃ v, Parse s = .ok v) ∨ (∃ s ∈ strs, ∃ e, Parse s = .error e) := by
  by_cases h : ∀ s ∈ strs, ∃ v, Parse s = .ok v
  · exact Or.inl h
  · right
    push_neg at h
    obtain ⟨s, hs, hn⟩ := h
    cases hp : Parse s with
    | error e => exact ⟨s, hs, e, hp⟩
    | ok v => exact absurd hp (hn v)

theorem inner_ok {ε : Type} (Parse : String → Except ε Semantic) (strs : List String) (hall : ∀ s ∈ strs, ∃ v, Parse s = .ok v) :
    parseVersionStrings Parse strs 0 (List.replicate strs.length none)
      = .ok (strs.map (parsed Parse)) := by
  rw [parseVersionStrings_ok Parse strs 0 _ (by simp) hall]
  simp


theorem loadTable_ok {ε : Type} (Parse : String → Except ε Semantic) (src : GoMap (List String)) (table : GoMap (List (Option Semantic)))
    (hall : ∀ e ∈ src, ∀ s ∈ e.2, ∃ v, Parse s = .ok v) :
    ∃ t, loadTable Parse src table = .ok t := by
  induction src generalizing table with
  | nil => exact ⟨table, rfl⟩
  | cons e rest ih =>
    obtain ⟨k, strs⟩ := e
    rw [loadTable, inner_ok Parse strs (hall (k, strs) (by simp))]
    exact ih _ (fun e he => hall e (by simp [he]))

theorem loadTable_error {ε : Type} (Parse : String → Except ε Semantic) (src : GoMap (List String)) (table : GoMap (List (Option Semantic)))
    (hbad : ∃ e ∈ src, ∃ s ∈ e.2, ∃ err, Parse s = .error err) :
    ∃ e ∈ src, ∃ s ∈ e.2, ∃ err, Parse s = .error err ∧
      loadTable Parse src table = .error (.err err) := by
  induction src generalizing table with
  | nil => simp at hbad
  | cons e rest ih =>
    obtain ⟨k, strs⟩ := e
    rw [loadTable]
    rcases parse_total_or_error Parse strs with hall | hb
    · rw [inner_ok Parse strs hall]
      have hbad2 : ∃ e ∈ rest, ∃ s ∈ e.2, ∃ err, Parse s = .error err := by
        obtain ⟨e, he, s, hs, err, herr⟩ := hbad
        rcases List.mem_cons.mp he with h | h
        · subst h
          obtain ⟨v, hv⟩ := hall s hs
          rw [hv] at herr; cases herr
        · exact ⟨e, h, s, hs, err, herr⟩
      obtain ⟨e, he, s, hs, err, herr, hr⟩ := ih (table.set k (strs.map (parsed Parse))) hbad2
      exact ⟨e, by simp [he], s, hs, err, herr, hr⟩
    · obtain ⟨s, hs, err, herr, hr⟩ := parseVersionStrings_error Parse strs 0 _ hb
      rw [hr]
      exact ⟨(k, strs), by simp, s, hs, err, herr, rfl⟩

theorem loadTable_get {ε : Type} (Parse : String → Except ε Semantic) (src : GoMap (List String)) (table t : GoMap (List (Option Semantic)))
    (h : loadTable Parse src table = .ok t) (hnd : (src.map Prod.fst).Nodup) (k : Nat) :
    t.get k = match src.get k with
      | some strs => some (strs.map (parsed Parse))
      | none => table.get k := by
  induction src generalizing table with
  | nil =>
    simp only [loadTable] at h
    cases h
    simp [GoMap.get]
  | cons e rest ih =>
    obtain ⟨k0, strs⟩ := e
    rw [loadTable] at h
    rcases parse_total_or_error Parse strs with hall | hb
    · rw [inner_ok Parse strs hall] at h
      simp only [List.map_cons, List.nodup_cons] at hnd
      have hrec := ih _ h hnd.2
      rw [hrec]
      by_cases hk : k = k0
      · subst hk
        have hnone : GoMap.get rest k = none := by
          unfold GoMap.get
          rw [List.lookup_eq_none_iff]
          intro p hp
          have : p.1 ≠ k := fun hpk => hnd.1 (hpk ▸ List.mem_map_of_mem Prod.fst hp)
          have h2 : ¬ k = p.1 := fun hkp => this hkp.symm
          simpa using h2
        rw [hnone]
        simp [GoMap.get_set, GoMap.get, List.lookup]
      · have hb : (k == k0) = false := by simpa using hk
        have hcons : GoMap.get ((k0, strs) :: rest) k = GoMap.get rest k := by
          simp [GoMap.get, List.lookup, hb]
        rw [hcons, GoMap.get_set, if_neg hk]
    · obtain ⟨s, hs, err, herr, hr⟩ := parseVersionStrings_error Parse strs 0 _ hb
      rw [hr] at h
      cases h

theorem loadTable_no_nil {ε : Type} (Parse : String → Except ε Semantic) (src : GoMap (List String)) (table t : GoMap (List (Option Semantic)))
    (h : loadTable Parse src table = .ok t)
    (htable : ∀ e ∈ table, ∀ x ∈ e.2, x ≠ none) :
    ∀ e ∈ t, ∀ x ∈ e.2, x ≠ none := by
  induction src generalizing table with
  | nil =>
    simp only [loadTable] at h
    cases h
    exact htable
  | cons e rest ih =>
    obtain ⟨k0, strs⟩ := e
    rw [loadTable] at h
    rcases parse_total_or_error Parse strs with hall | hb
    · rw [inner_ok Parse strs hall] at h
      apply ih _ h
      intro e he x hx
      rcases GoMap.mem_set _ _ _ _ he with h1 | h1
      · subst h1
        simp only [List.mem_map] at hx
        obtain ⟨s, hs, rfl⟩ := hx
        obtain ⟨v, hv⟩ := hall s hs
        simp [parsed, hv]
      · exact htable e h1 x hx
    · obtain ⟨s, hs, err, herr, hr⟩ := parseVersionStrings_error Parse strs 0 _ hb
      rw [hr] at h
      cases h

theorem loadTable_ok_all {ε : Type} (Parse : String → Except ε Semantic) (src : GoMap (List String)) (table t : GoMap (List (Option Semantic)))
    (h : loadTable Parse src table = .ok t) :
    ∀ e ∈ src, ∀ s ∈ e.2, ∃ v, Parse s = .ok v := by
  rcases parse_total_or_error Parse (src.flatMap Prod.snd) with hall | hb
  · intro e he s hs
    exact hall s (List.mem_flatMap.mpr ⟨e, he, hs⟩)
  · obtain ⟨s, hs, err, herr⟩ := hb
    obtain ⟨e, he, hs2⟩ := List.mem_flatMap.mp hs
    obtain ⟨_, _, _, _, _, _, hr⟩ := loadTable_error Parse src table ⟨e, he, s, hs2, err, herr⟩
    rw [hr] at h
    cases h

theorem loadTable_keys {ε : Type} (Parse : String → Except ε Semantic) (src : GoMap (List String)) (table t : GoMap (List (Option Semantic)))
    (h : loadTable Parse src table = .ok t) (k : Nat) :
    (t.get k).isSome = ((src.get k).isSome || (table.get k).isSome) := by
  induction src generalizing table with
  | nil =>
    simp only [loadTable] at h
    cases h
    simp [GoMap.get]
  | cons e rest ih =>
    obtain ⟨k0, strs⟩ := e
    rw [loadTable] at h
    rcases parse_total_or_error Parse strs with hall | hb
    · rw [inner_ok Parse strs hall] at h
      rw [ih _ h, GoMap.get_set]
      by_cases hk : k = k0
      · subst hk
        simp [GoMap.get, List.lookup]
      · have hb : (k == k0) = false := by simpa using hk
        have hcons : GoMap.get ((k0, strs) :: rest) k = GoMap.get rest k := by
          simp [GoMap.get, List.lookup, hb]
        rw [hcons, if_neg hk]
    · obtain ⟨s, hs, err, herr, hr⟩ := parseVersionStrings_error Parse strs 0 _ hb
      rw [hr] at h
      cases h

theorem loadTable_entry {ε : Type} (Parse : String → Except ε Semantic) (src : GoMap (List String)) (t : GoMap (List (Option Semantic)))
    (ht : loadTable Parse src [] = .ok t) (hkeys : (src.map Prod.fst).Nodup)
    (k : Nat) (strs : List String) (hk : src.get k = some strs) :
    ∃ versions, t.get k = some versions ∧ versions.length = strs.length ∧
      ∀ (i : Nat) (hi : i < strs.length),
        ∃ v, Parse (strs.get ⟨i, hi⟩) = .ok v ∧ versions[i]? = some (some v) := by
  have hget := loadTable_get Parse src [] _ ht hkeys
  have hall := loadTable_ok_all Parse src [] _ ht
  rw [hget k, hk]
  refine ⟨_, rfl, by simp, ?_⟩
  intro i hi
  have hmem : (k, strs) ∈ src := by
    unfold GoMap.get at hk
    obtain ⟨l1, l2, hl, -⟩ := List.lookup_eq_some_iff.mp hk
    rw [hl]; simp
  obtain ⟨v, hv⟩ := hall (k, strs) hmem (strs.get ⟨i, hi⟩) (List.get_mem _ _ _)
  refine ⟨v, hv, ?_⟩
  rw [List.getElem?_map, List.getElem?_eq_getElem hi]
  simp only [Option.map_some', parsed]
  have hv2 : Parse strs[i] = .ok v := hv
  rw [hv2]

theorem mem_get_isSome {α : Type} (m : GoMap α) (e : Nat × α) (he : e ∈ m) :
    (m.get e.1).isSome = true := by
  unfold GoMap.get
  rw [List.lookup_isSome_iff]
  exact ⟨e, he, by simp⟩

/-! ## The stages of `init` -/


theorem isDecimalInt_iff (s : String) : isDecimalInt s ↔ ∃ n, Atoi s = .ok n := by
  unfold isDecimalInt
  constructor
  · rintro ⟨h0, h⟩
    cases hd : decimalValue (goBytes s) with
    | none => exact absurd hd h0
    | some n =>
      rw [hd] at h
      exact ⟨n, (Atoi_ok_iff s n).mpr ⟨hd, h⟩⟩
  · rintro ⟨n, hn⟩
    obtain ⟨h1, h2⟩ := (Atoi_ok_iff s n).mp hn
    rw [h1]; exact ⟨by simp, h2⟩

theorem offending_iff (s : String) : offending s ↔ s ≠ "" ∧ ∃ e, Atoi s = .error e := by
  unfold offending
  rw [isDecimalInt_iff]
  constructor
  · rintro ⟨h1, h2⟩
    refine ⟨h1, ?_⟩
    cases h : Atoi s with
    | error e => exact ⟨e, rfl⟩
    | ok n => exact absurd ⟨n, h⟩ h2
  · rintro ⟨h1, e, he⟩
    refine ⟨h1, ?_⟩
    rintro ⟨n, hn⟩
    rw [he] at hn; cases hn

theorem step_ok {ε : Type} (name s : String) (d x : Int) :
    ((if s ≠ "" then
        (match Atoi s with
          | .error _ => (.error (.str (name ++ s)) : Except (PanicValue ε) Int)
          | .ok v => .ok v)
      else .ok d) = .ok x) ↔ componentIs s d x := by
  unfold componentIs
  by_cases hs : s = ""
  · simp [hs, eq_comm]
  · cases hA : Atoi s <;> simp [hs, hA]

theorem step_error {ε : Type} (name s : String) (d : Int) (p : PanicValue ε) :
    ((if s ≠ "" then
        (match Atoi s with
          | .error _ => (.error (.str (name ++ s)) : Except (PanicValue ε) Int)
          | .ok v => .ok v)
      else .ok d) = .error p) ↔ offending s ∧ p = .str (name ++ s) := by
  rw [offending_iff]
  by_cases hs : s = ""
  · simp [hs]
  · cases hA : Atoi s <;> simp [hs, hA, eq_comm]

theorem initVersion_ok_iff {ε : Type} (vM vm vp : String) (c : Semantic) (a : Application) :
    initVersion (ε := ε) vM vm vp = .ok (c, a) ↔
      componentIs vM defaultMajor c.Major ∧ componentIs vm defaultMinor c.Minor ∧
      componentIs vp defaultPatch c.Patch ∧
      a = { Name := Client, Major := c.Major, Minor := c.Minor, Patch := c.Patch } := by
  unfold initVersion
  dsimp only
  split
  · rename_i p h1
    have := (step_error _ _ _ _).mp h1
    constructor
    · intro h; cases h
    · rintro ⟨hM, -⟩
      have h2 := (step_ok (ε := ε) "invalid VersionMajor: " _ _ _).mpr hM
      cases h1.symm.trans h2
  · rename_i major h1
    have hM := (step_ok _ _ _ _).mp h1
    split
    · rename_i p h2
      constructor
      · intro h; cases h
      · rintro ⟨-, hm, -⟩
        have h3 := (step_ok (ε := ε) "invalid VersionMinor: " _ _ _).mpr hm
        cases h2.symm.trans h3
    · rename_i minor h2
      have hm := (step_ok _ _ _ _).mp h2
      split
      · rename_i p h3
        constructor
        · intro h; cases h
        · rintro ⟨-, -, hp, -⟩
          have h4 := (step_ok (ε := ε) "invalid VersionPatch: " _ _ _).mpr hp
          cases h3.symm.trans h4
      · rename_i patch h3
        have hp := (step_ok _ _ _ _).mp h3
        constructor
        · intro h
          have h := Except.ok.inj h
          simp only [Prod.mk.injEq] at h
          obtain ⟨rfl, rfl⟩ := h
          exact ⟨hM, hm, hp, rfl⟩
        · rintro ⟨hM2, hm2, hp2, rfl⟩
          have e1 := (step_ok (ε := ε) "invalid VersionMajor: " _ _ _).mpr hM2
          have e2 := (step_ok (ε := ε) "invalid VersionMinor: " _ _ _).mpr hm2
          have e3 := (step_ok (ε := ε) "invalid VersionPatch: " _ _ _).mpr hp2
          cases h1.symm.trans e1
          cases h2.symm.trans e2
          cases h3.symm.trans e3
          rfl


theorem componentIs_not_offending (s : String) (d x : Int) (h : componentIs s d x) :
    ¬ offending s := by
  rw [offending_iff]
  rintro ⟨hne, e, he⟩
  rcases h with ⟨h1, _⟩ | ⟨_, h2⟩
  · exact hne h1
  · rw [he] at h2; cases h2

theorem not_offending_componentIs (s : String) (d : Int) (h : ¬ offending s) :
    ∃ x, componentIs s d x := by
  rw [offending_iff] at h
  by_cases hs : s = ""
  · exact ⟨d, Or.inl ⟨hs, rfl⟩⟩
  · cases hA : Atoi s with
    | error e => exact absurd ⟨hs, e, hA⟩ h
    | ok x => exact ⟨x, Or.inr ⟨hs, hA⟩⟩

theorem initVersion_error_major {ε : Type} (vM vm vp : String) (h : offending vM) :
    initVersion (ε := ε) vM vm vp = .error (.str ("invalid VersionMajor: " ++ vM)) := by
  unfold initVersion
  dsimp only
  split
  · rename_i p h1
    rw [((step_error _ _ _ _).mp h1).2]
  · rename_i major h1
    exact absurd h (componentIs_not_offending _ _ _ ((step_ok _ _ _ _).mp h1))

theorem initVersion_error_minor {ε : Type} (vM vm vp : String) (hM : ¬ offending vM)
    (h : offending vm) :
    initVersion (ε := ε) vM vm vp = .error (.str ("invalid VersionMinor: " ++ vm)) := by
  unfold initVersion
  dsimp only
  split
  · rename_i p h1
    exact absurd ((step_error _ _ _ _).mp h1).1 hM
  · split
    · rename_i p h2
      rw [((step_error _ _ _ _).mp h2).2]
    · rename_i minor h2
      exact absurd h (componentIs_not_offending _ _ _ ((step_ok _ _ _ _).mp h2))

theorem initVersion_error_patch {ε : Type} (vM vm vp : String) (hM : ¬ offending vM)
    (hm : ¬ offending vm) (h : offending vp) :
    initVersion (ε := ε) vM vm vp = .error (.str ("invalid VersionPatch: " ++ vp)) := by
  unfold initVersion
  dsimp only
  split
  · rename_i p h1
    exact absurd ((step_error _ _ _ _).mp h1).1 hM
  · split
    · rename_i p h2
      exact absurd ((step_error _ _ _ _).mp h2).1 hm
    · split
      · rename_i p h3
        rw [((step_error _ _ _ _).mp h3).2]
      · rename_i patch h3
        exact absurd h (componentIs_not_offending _ _ _ ((step_ok _ _ _ _).mp h3))

theorem initVersion_ok_of_none_offending {ε : Type} (vM vm vp : String) (hM : ¬ offending vM)
    (hm : ¬ offending vm) (hp : ¬ offending vp) :
    ∃ c, initVersion (ε := ε) vM vm vp = .ok c := by
  obtain ⟨x, hx⟩ := not_offending_componentIs vM defaultMajor hM
  obtain ⟨y, hy⟩ := not_offending_componentIs vm defaultMinor hm
  obtain ⟨z, hz⟩ := not_offending_componentIs vp defaultPatch hp
  exact ⟨_, (initVersion_ok_iff vM vm vp ⟨x, y, z⟩ _).mpr ⟨hx, hy, hz, rfl⟩⟩

theorem init_ok_iff {ε : Type} (vM vm vp : String) (decoded : Except ε (GoMap (List String)))
    (Parse : String → Except ε Semantic) (g : Globals) :
    init vM vm vp decoded Parse = .ok g ↔
      initVersion (ε := ε) vM vm vp = .ok (g.Current, g.CurrentApp) ∧
      initTable Parse decoded = .ok g.RPCChainVMProtocolCompatibility := by
  unfold init
  cases hv : initVersion (ε := ε) vM vm vp with
  | error p => simp
  | ok ca =>
    obtain ⟨c, a⟩ := ca
    cases ht : initTable Parse decoded with
    | error p => simp
    | ok t =>
      obtain ⟨gc, ga, gt⟩ := g
      simp only [Except.ok.injEq, Globals.mk.injEq, Prod.mk.injEq]
      tauto

theorem init_error_of_version {ε : Type} (vM vm vp : String)
    (decoded : Except ε (GoMap (List String))) (Parse : String → Except ε Semantic)
    (p : PanicValue ε) (h : initVersion (ε := ε) vM vm vp = .error p) :
    init vM vm vp decoded Parse = .error p := by
  unfold init
  rw [h]

theorem init_error_of_table {ε : Type} (vM vm vp : String)
    (decoded : Except ε (GoMap (List String))) (Parse : String → Except ε Semantic)
    (c : Semantic × Application) (p : PanicValue ε)
    (hv : initVersion (ε := ε) vM vm vp = .ok c) (h : initTable Parse decoded = .error p) :
    init vM vm vp decoded Parse = .error p := by
  unfold init
  rw [hv]
  simp only [h]

theorem componentIs_value (s : String) (d x : Int) (h : componentIs s d x) :
    (s = "" → x = d) ∧ (s ≠ "" → decimalValue (goBytes s) = some x ∧ inIntRange x) := by
  rcases h with ⟨h1, h2⟩ | ⟨h1, h2⟩
  · exact ⟨fun _ => h2, fun hne => absurd h1 hne⟩
  · exact ⟨fun he => absurd he h1, fun _ => (Atoi_ok_iff s x).mp h2⟩

theorem decimalValue_nonneg (b : List Nat) (x : Int) (h : decimalValue b = some x)
    (hs : b.head? ≠ some 45) : 0 ≤ x := by
  unfold decimalValue at h
  split_ifs at h with h1
  cases h
  exact Int.ofNat_nonneg _

theorem componentIs_nonneg (s : String) (d x : Int) (hd : 0 ≤ d) (h : componentIs s d x)
    (hs : (goBytes s).head? ≠ some 45) : 0 ≤ x := by
  rcases h with ⟨_, h2⟩ | ⟨_, h2⟩
  · rw [h2]; exact hd
  · exact decimalValue_nonneg _ _ ((Atoi_ok_iff s x).mp h2).1 hs

theorem Application.Compare_swap (a b : Application) :
    b.Compare a = (a.Compare b).swap := by
  unfold Application.Compare
  split_ifs <;> first | rfl | omega

/-! ## The claims -/

/-- C1: for every timestamp `t`, `GetCompatibility(t)` is exactly
`NewCompatibility(CurrentApp, luxd/1.13.0, t, luxd/1.12.0)`: the current
version first, the new floor second, the timestamp unchanged third and the
previous floor last, the two floors not being swapped. -/
theorem GetCompatibility_eq_NewCompatibility (g : Globals) (t : Time) :
    GetCompatibility g t =
        NewCompatibility g.CurrentApp
          { Name := "luxd", Major := 1, Minor := 13, Patch := 0 } t
          { Name := "luxd", Major := 1, Minor := 12, Patch := 0 } ∧
      (GetCompatibility g t).current = g.CurrentApp ∧
      (GetCompatibility g t).minCompatible = MinimumCompatibleVersion ∧
      (GetCompatibility g t).minCompatibleTime = t ∧
      (GetCompatibility g t).prevMinCompatible = PrevMinimumCompatibleVersion ∧
      (GetCompatibility g t).minCompatible ≠ (GetCompatibility g t).prevMinCompatible := by
  refine ⟨rfl, rfl, rfl, rfl, rfl, ?_⟩
  simp [GetCompatibility, NewCompatibility, MinimumCompatibleVersion,
    PrevMinimumCompatibleVersion]

/-- C2: whenever `init` completes, each component of `Current` depends only
on its own injected string: it is the default (1, 22, 75) when the string is
empty and the base-10 integer value of the string otherwise; with all three
strings empty `Current` is 1.22.75. -/
theorem init_current_components {ε : Type} (VersionMajor VersionMinor VersionPatch : String)
    (decoded : Except ε (GoMap (List String))) (Parse : String → Except ε Semantic)
    (g : Globals)
    (h : init VersionMajor VersionMinor VersionPatch decoded Parse = .ok g) :
    (VersionMajor = "" → g.Current.Major = 1) ∧
    (VersionMajor ≠ "" → decimalValue (goBytes VersionMajor) = some g.Current.Major) ∧
    (VersionMinor = "" → g.Current.Minor = 22) ∧
    (VersionMinor ≠ "" → decimalValue (goBytes VersionMinor) = some g.Current.Minor) ∧
    (VersionPatch = "" → g.Current.Patch = 75) ∧
    (VersionPatch ≠ "" → decimalValue (goBytes VersionPatch) = some g.Current.Patch) ∧
    (VersionMajor = "" → VersionMinor = "" → VersionPatch = "" →
      g.Current = { Major := 1, Minor := 22, Patch := 75 }) := by
  obtain ⟨hM, hm, hp, -⟩ :=
    (initVersion_ok_iff _ _ _ _ _).mp ((init_ok_iff _ _ _ _ _ _).mp h).1
  have vM := componentIs_value _ _ _ hM
  have vm := componentIs_value _ _ _ hm
  have vp := componentIs_value _ _ _ hp
  refine ⟨vM.1, fun hne => (vM.2 hne).1, vm.1, fun hne => (vm.2 hne).1, vp.1,
    fun hne => (vp.2 hne).1, ?_⟩
  intro e1 e2 e3
  obtain ⟨c, a, t⟩ := g
  obtain ⟨x, y, z⟩ := c
  have h1 := vM.1 e1
  have h2 := vm.1 e2
  have h3 := vp.1 e3
  simp only at h1 h2 h3
  subst h1 h2 h3
  rfl

/-- C2, at the injected strings "2", "" and "+3" with the example table. -/
theorem init_current_components_witness :
    init "2" "" "+3" (.ok exampleSource) Parse =
        .ok { Current := { Major := 2, Minor := 22, Patch := 3 },
              CurrentApp := { Name := "luxd", Major := 2, Minor := 22, Patch := 3 },
              RPCChainVMProtocolCompatibility :=
                [(42, [some { Major := 1, Minor := 22, Patch := 0 },
                       some { Major := 1, Minor := 22, Patch := 1 }])] } ∧
      decimalValue (goBytes "2") = some 2 ∧ decimalValue (goBytes "+3") = some 3 :=
  have h := init_current_components "2" "" "+3" (.ok exampleSource) Parse
    { Current := { Major := 2, Minor := 22, Patch := 3 },
      CurrentApp := { Name := "luxd", Major := 2, Minor := 22, Patch := 3 },
      RPCChainVMProtocolCompatibility :=
        [(42, [some { Major := 1, Minor := 22, Patch := 0 },
               some { Major := 1, Minor := 22, Patch := 1 }])] } (by decide)
  ⟨by decide, h.2.1 (by decide), h.2.2.2.2.2.1 (by decide)⟩



/-- C3, as stated, fails: the string "9223372036854775808" is a base-10
integer, and no injected string is both non-empty and not a base-10 integer,
yet the version stage of `init` panics with "invalid VersionMajor: ...",
because the value does not fit Go's `int`. -/
theorem initVersion_panics_on_decimal :
    initVersion (ε := MalformedVersionError) "9223372036854775808" "" ""
        = .error (.str "invalid VersionMajor: 9223372036854775808") ∧
      isDecimal "9223372036854775808" ∧
      ¬ (("9223372036854775808" ≠ "" ∧ ¬ isDecimal "9223372036854775808") ∨
          (("" : String) ≠ "" ∧ ¬ isDecimal "") ∨ (("" : String) ≠ "" ∧ ¬ isDecimal "")) := by
  decide

/-- C3, amended: the version stage of `init` panics if and only if at least
one of the three injected strings is non-empty and is not a base-10 integer
that fits Go's 64-bit `int`; the panic value is "invalid VersionMajor: ",
"invalid VersionMinor: " or "invalid VersionPatch: " followed by the string,
for the first such component in the order major, minor, patch; `init` then
panics with the same value; an empty string never causes a panic. -/
theorem initVersion_panics_iff {ε : Type} (VersionMajor VersionMinor VersionPatch : String) :
    ((∃ p, initVersion (ε := ε) VersionMajor VersionMinor VersionPatch = .error p) ↔
        (offending VersionMajor ∨ offending VersionMinor ∨ offending VersionPatch)) ∧
    (offending VersionMajor →
      initVersion (ε := ε) VersionMajor VersionMinor VersionPatch
        = .error (.str ("invalid VersionMajor: " ++ VersionMajor))) ∧
    (¬ offending VersionMajor → offending VersionMinor →
      initVersion (ε := ε) VersionMajor VersionMinor VersionPatch
        = .error (.str ("invalid VersionMinor: " ++ VersionMinor))) ∧
    (¬ offending VersionMajor → ¬ offending VersionMinor → offending VersionPatch →
      initVersion (ε := ε) VersionMajor VersionMinor VersionPatch
        = .error (.str ("invalid VersionPatch: " ++ VersionPatch))) ∧
    (∀ (decoded : Except ε (GoMap (List String))) (Parse : String → Except ε Semantic)
        (p : PanicValue ε),
      initVersion (ε := ε) VersionMajor VersionMinor VersionPatch = .error p →
        init VersionMajor VersionMinor VersionPatch decoded Parse = .error p) ∧
    ¬ offending "" := by
  refine ⟨⟨?_, ?_⟩, initVersion_error_major _ _ _, initVersion_error_minor _ _ _,
    initVersion_error_patch _ _ _, fun d P p hp => init_error_of_version _ _ _ d P p hp,
    fun h => h.1 rfl⟩
  · rintro ⟨p, hp⟩
    by_contra hc
    push_neg at hc
    obtain ⟨c, hc2⟩ := initVersion_ok_of_none_offending (ε := ε) _ _ _ hc.1 hc.2.1 hc.2.2
    rw [hp] at hc2
    cases hc2
  · intro h
    by_cases hM : offending VersionMajor
    · exact ⟨_, initVersion_error_major _ _ _ hM⟩
    · by_cases hm : offending VersionMinor
      · exact ⟨_, initVersion_error_minor _ _ _ hM hm⟩
      · rcases h with h | h | h
        · exact absurd h hM
        · exact absurd h hm
        · exact ⟨_, initVersion_error_patch _ _ _ hM hm h⟩

/-- C3, amended, at the injected strings "1", "x" and "y": the minor
component is the first offending one. -/
theorem initVersion_panics_iff_witness :
    ¬ offending "1" ∧ offending "x" ∧
      initVersion (ε := MalformedVersionError) "1" "x" "y"
        = .error (.str "invalid VersionMinor: x") :=
  ⟨by decide, by decide,
    (initVersion_panics_iff (ε := MalformedVersionError) "1" "x" "y").2.2.1
      (by decide) (by decide)⟩

/-- C4, as stated, fails: with the major string "-1" (and the example
table) `init` completes and `Current.Major` is -1. -/
theorem init_negative_major :
    init "-1" "" "" (.ok exampleSource) Parse =
        .ok { Current := { Major := -1, Minor := 22, Patch := 75 },
              CurrentApp := { Name := "luxd", Major := -1, Minor := 22, Patch := 75 },
              RPCChainVMProtocolCompatibility :=
                [(42, [some { Major := 1, Minor := 22, Patch := 0 },
                       some { Major := 1, Minor := 22, Patch := 1 }])] } ∧
      ¬ ((0 : Int) ≤ -1) := by
  decide

/-- C4, amended: whenever `init` completes, every component of `Current` and
of `CurrentApp` lies in the range of Go's `int`, and a component is
non-negative whenever its injected string does not begin with the sign `-`
(in particular when the string is empty). -/
theorem init_current_nonneg {ε : Type} (VersionMajor VersionMinor VersionPatch : String)
    (decoded : Except ε (GoMap (List String))) (Parse : String → Except ε Semantic)
    (g : Globals)
    (h : init VersionMajor VersionMinor VersionPatch decoded Parse = .ok g) :
    (inIntRange g.Current.Major ∧ inIntRange g.Current.Minor ∧ inIntRange g.Current.Patch) ∧
    (inIntRange g.CurrentApp.Major ∧ inIntRange g.CurrentApp.Minor ∧
      inIntRange g.CurrentApp.Patch) ∧
    ((goBytes VersionMajor).head? ≠ some 45 → 0 ≤ g.Current.Major ∧ 0 ≤ g.CurrentApp.Major) ∧
    ((goBytes VersionMinor).head? ≠ some 45 → 0 ≤ g.Current.Minor ∧ 0 ≤ g.CurrentApp.Minor) ∧
    ((goBytes VersionPatch).head? ≠ some 45 → 0 ≤ g.Current.Patch ∧ 0 ≤ g.CurrentApp.Patch) := by
  obtain ⟨hM, hm, hp, ha⟩ :=
    (initVersion_ok_iff _ _ _ _ _).mp ((init_ok_iff _ _ _ _ _ _).mp h).1
  have rng : ∀ (s : String) (d x : Int), inIntRange d → componentIs s d x → inIntRange x := by
    intro s d x hd hc
    rcases hc with ⟨_, h2⟩ | ⟨_, h2⟩
    · rw [h2]; exact hd
    · exact ((Atoi_ok_iff s x).mp h2).2
  have rM := rng _ _ _ (by decide) hM
  have rm := rng _ _ _ (by decide) hm
  have rp := rng _ _ _ (by decide) hp
  refine ⟨⟨rM, rm, rp⟩, ?_, ?_, ?_, ?_⟩
  · rw [ha]; exact ⟨rM, rm, rp⟩
  · intro hs
    have := componentIs_nonneg _ _ _ (by decide) hM hs
    rw [ha]; exact ⟨this, this⟩
  · intro hs
    have := componentIs_nonneg _ _ _ (by decide) hm hs
    rw [ha]; exact ⟨this, this⟩
  · intro hs
    have := componentIs_nonneg _ _ _ (by decide) hp hs
    rw [ha]; exact ⟨this, this⟩

/-- C4, amended, at the injected strings "-1", "" and "+3" with the example
table: the patch component is non-negative and the major component, -1, is
in the range of `int`, in `Current` and in `CurrentApp`. -/
theorem init_current_nonneg_witness :
    init "-1" "" "+3" (.ok exampleSource) Parse =
        .ok { Current := { Major := -1, Minor := 22, Patch := 3 },
              CurrentApp := { Name := "luxd", Major := -1, Minor := 22, Patch := 3 },
              RPCChainVMProtocolCompatibility :=
                [(42, [some { Major := 1, Minor := 22, Patch := 0 },
                       some { Major := 1, Minor := 22, Patch := 1 }])] } ∧
      (goBytes "+3").head? ≠ some 45 ∧ (0 : Int) ≤ 3 ∧ inIntRange (-1) ∧
      inIntRange
        ({ Name := "luxd", Major := -1, Minor := 22, Patch := 3 } : Application).Major :=
  have h := init_current_nonneg "-1" "" "+3" (.ok exampleSource) Parse
    { Current := { Major := -1, Minor := 22, Patch := 3 },
      CurrentApp := { Name := "luxd", Major := -1, Minor := 22, Patch := 3 },
      RPCChainVMProtocolCompatibility :=
        [(42, [some { Major := 1, Minor := 22, Patch := 0 },
               some { Major := 1, Minor := 22, Patch := 1 }])] } (by decide)
  ⟨by decide, by decide, (h.2.2.2.2 (by decide)).1, h.1.1, h.2.1.1⟩

/-- C5: table loading is all-or-nothing.  For every decoded source mapping,
the table stage of `init` completes if and only if `Parse` succeeds on every
version string of every entry; if `Parse` fails on some string, the stage
(and `init`, once the version stage has passed) panics with the error of
`Parse` on a string of the source.  A completed `init` leaves no `nil`
version in the table, no key of the source is missing from the table, and
(the keys of a Go map being distinct) the sequence stored under a key has
one version for every string of the source list, the result of `Parse` on
it: none is missing or skipped. -/
theorem initTable_all_or_nothing {ε : Type} (Parse : String → Except ε Semantic)
    (src : GoMap (List String)) :
    ((∃ table, initTable Parse (.ok src) = .ok table) ↔
        ∀ e ∈ src, ∀ s ∈ e.2, ∃ v, Parse s = .ok v) ∧
    ((∃ e ∈ src, ∃ s ∈ e.2, ∃ err, Parse s = .error err) →
      ∃ e ∈ src, ∃ s ∈ e.2, ∃ err, Parse s = .error err ∧
        initTable Parse (.ok src) = .error (.err err) ∧
        ∀ (VersionMajor VersionMinor VersionPatch : String) (c : Semantic × Application),
          initVersion (ε := ε) VersionMajor VersionMinor VersionPatch = .ok c →
          init VersionMajor VersionMinor VersionPatch (.ok src) Parse = .error (.err err)) ∧
    (∀ (VersionMajor VersionMinor VersionPatch : String)
        (decoded : Except ε (GoMap (List String))) (g : Globals),
      init VersionMajor VersionMinor VersionPatch decoded Parse = .ok g →
        ∀ e ∈ g.RPCChainVMProtocolCompatibility, ∀ x ∈ e.2, x ≠ none) ∧
    (∀ (VersionMajor VersionMinor VersionPatch : String) (g : Globals),
      init VersionMajor VersionMinor VersionPatch (.ok src) Parse = .ok g →
        ∀ e ∈ src, (g.RPCChainVMProtocolCompatibility.get e.1).isSome = true) ∧
    (∀ (VersionMajor VersionMinor VersionPatch : String) (g : Globals),
      init VersionMajor VersionMinor VersionPatch (.ok src) Parse = .ok g →
      (src.map Prod.fst).Nodup →
        ∀ k strs, src.get k = some strs →
          ∃ versions, g.RPCChainVMProtocolCompatibility.get k = some versions ∧
            versions.length = strs.length ∧
            ∀ (i : Nat) (hi : i < strs.length),
              ∃ v, Parse (strs.get ⟨i, hi⟩) = .ok v ∧ versions[i]? = some (some v)) := by
  refine ⟨⟨?_, ?_⟩, ?_, ?_, ?_, ?_⟩
  · rintro ⟨table, ht⟩
    exact loadTable_ok_all Parse src [] table ht
  · intro hall
    exact loadTable_ok Parse src [] hall
  · intro hbad
    obtain ⟨e, he, s, hs, err, herr, hr⟩ := loadTable_error Parse src [] hbad
    refine ⟨e, he, s, hs, err, herr, hr, ?_⟩
    intro vM vm vp c hc
    exact init_error_of_table vM vm vp (.ok src) Parse c _ hc hr
  · intro vM vm vp decoded g hg
    have ht := ((init_ok_iff _ _ _ _ _ _).mp hg).2
    cases decoded with
    | error err => simp [initTable] at ht
    | ok src2 =>
      exact loadTable_no_nil Parse src2 [] _ ht (by simp)
  · intro vM vm vp g hg e he
    have ht : loadTable Parse src [] = .ok g.RPCChainVMProtocolCompatibility :=
      ((init_ok_iff _ _ _ _ _ _).mp hg).2
    rw [loadTable_keys Parse src [] _ ht e.1, mem_get_isSome src e he]
    rfl
  · intro vM vm vp g hg hkeys k strs hk
    have ht : loadTable Parse src [] = .ok g.RPCChainVMProtocolCompatibility :=
      ((init_ok_iff _ _ _ _ _ _).mp hg).2
    exact loadTable_entry Parse src _ ht hkeys k strs hk

/-- C5, on both paths.  At a source whose second entry holds the malformed
string "1.2", `init` panics with the error of `Parse` on it; at the example
source `init` completes and the table holds, under the key 42, one version
for each of the two strings. -/
theorem initTable_all_or_nothing_witness :
    (Parse "1.2" = .error { text := "1.2" } ∧
      init "" "" "" (.ok [(42, ["1.22.0"]), (41, ["1.21.0", "1.2"])]) Parse
        = .error (.err { text := "1.2" }) ∧
      ∃ e ∈ [(42, ["1.22.0"]), (41, ["1.21.0", "1.2"])], ∃ s ∈ e.2, ∃ err,
        Parse s = .error err ∧
        initTable Parse (.ok [(42, ["1.22.0"]), (41, ["1.21.0", "1.2"])])
          = .error (.err err)) ∧
    (init "" "" "" (.ok exampleSource) Parse =
        .ok { Current := { Major := 1, Minor := 22, Patch := 75 },
              CurrentApp := { Name := "luxd", Major := 1, Minor := 22, Patch := 75 },
              RPCChainVMProtocolCompatibility :=
                [(42, [some { Major := 1, Minor := 22, Patch := 0 },
                       some { Major := 1, Minor := 22, Patch := 1 }])] } ∧
      (exampleSource.map Prod.fst).Nodup ∧
      (GoMap.get [(42, [some { Major := 1, Minor := 22, Patch := 0 },
                        some ({ Major := 1, Minor := 22, Patch := 1 } : Semantic)])]
          (42, ["1.22.0", "1.22.1"]).1).isSome = true ∧
      ∃ versions,
        GoMap.get [(42, [some { Major := 1, Minor := 22, Patch := 0 },
                         some { Major := 1, Minor := 22, Patch := 1 }])] 42 = some versions ∧
        versions.length = ["1.22.0", "1.22.1"].length ∧
        ∀ (i : Nat) (hi : i < ["1.22.0", "1.22.1"].length),
          ∃ v, Parse (["1.22.0", "1.22.1"].get ⟨i, hi⟩) = .ok v ∧
            versions[i]? = some (some v)) :=
  have hbad := (initTable_all_or_nothing Parse [(42, ["1.22.0"]), (41, ["1.21.0", "1.2"])]).2.1
    ⟨(41, ["1.21.0", "1.2"]), by decide, "1.2", by decide, { text := "1.2" }, by decide⟩
  have hgood := initTable_all_or_nothing Parse exampleSource
  ⟨⟨by decide, by decide,
      hbad.elim fun e he => he.2.elim fun s hs => hs.2.elim fun err herr =>
        ⟨e, he.1, s, hs.1, err, herr.1, herr.2.1⟩⟩,
    by decide, by decide,
    hgood.2.2.2.1 "" "" ""
      { Current := { Major := 1, Minor := 22, Patch := 75 },
        CurrentApp := { Name := "luxd", Major := 1, Minor := 22, Patch := 75 },
        RPCChainVMProtocolCompatibility :=
          [(42, [some { Major := 1, Minor := 22, Patch := 0 },
                 some { Major := 1, Minor := 22, Patch := 1 }])] }
      (by decide) (42, ["1.22.0", "1.22.1"]) (by decide),
    hgood.2.2.2.2 "" "" ""
      { Current := { Major := 1, Minor := 22, Patch := 75 },
        CurrentApp := { Name := "luxd", Major := 1, Minor := 22, Patch := 75 },
        RPCChainVMProtocolCompatibility :=
          [(42, [some { Major := 1, Minor := 22, Patch := 0 },
                 some { Major := 1, Minor := 22, Patch := 1 }])] }
      (by decide) (by decide) 42 ["1.22.0", "1.22.1"] (by decide)⟩

/-- C6: when `init` completes, `RPCChainVMProtocolCompatibility` has exactly
the keys of the decoded source mapping, and under every key the stored
sequence has the length of the source list and holds, at each index `i`,
the result of `Parse` on the `i`-th source string. -/
theorem init_table_contents {ε : Type} (VersionMajor VersionMinor VersionPatch : String)
    (src : GoMap (List String)) (Parse : String → Except ε Semantic) (g : Globals)
    (h : init VersionMajor VersionMinor VersionPatch (.ok src) Parse = .ok g)
    (hkeys : (src.map Prod.fst).Nodup) :
    (∀ k, (g.RPCChainVMProtocolCompatibility.get k).isSome = (src.get k).isSome) ∧
    (∀ k strs, src.get k = some strs →
      ∃ versions, g.RPCChainVMProtocolCompatibility.get k = some versions ∧
        versions.length = strs.length ∧
        ∀ (i : Nat) (hi : i < strs.length),
          ∃ v, Parse (strs.get ⟨i, hi⟩) = .ok v ∧ versions[i]? = some (some v)) := by
  have ht : loadTable Parse src [] = .ok g.RPCChainVMProtocolCompatibility :=
    ((init_ok_iff _ _ _ _ _ _).mp h).2
  have hget := loadTable_get Parse src [] _ ht hkeys
  have hall := loadTable_ok_all Parse src [] _ ht
  constructor
  · intro k
    rw [hget k]
    cases src.get k <;> simp [GoMap.get]
  · intro k strs hk
    rw [hget k, hk]
    refine ⟨_, rfl, by simp, ?_⟩
    intro i hi
    have hmem : (k, strs) ∈ src := by
      unfold GoMap.get at hk
      obtain ⟨l1, l2, hl, -⟩ := List.lookup_eq_some_iff.mp hk
      rw [hl]; simp
    obtain ⟨v, hv⟩ := hall (k, strs) hmem (strs.get ⟨i, hi⟩) (List.get_mem _ _ _)
    refine ⟨v, hv, ?_⟩
    rw [List.getElem?_map, List.getElem?_eq_getElem hi]
    simp only [Option.map_some', parsed]
    have hv2 : Parse strs[i] = .ok v := hv
    rw [hv2]



/-- C6, at the example source with all injected strings empty. -/
theorem init_table_contents_witness :
    init "" "" "" (.ok exampleSource) Parse =
        .ok { Current := { Major := 1, Minor := 22, Patch := 75 },
              CurrentApp := { Name := "luxd", Major := 1, Minor := 22, Patch := 75 },
              RPCChainVMProtocolCompatibility :=
                [(42, [some { Major := 1, Minor := 22, Patch := 0 },
                       some { Major := 1, Minor := 22, Patch := 1 }])] } ∧
      (exampleSource.map Prod.fst).Nodup ∧
      ∃ versions,
        GoMap.get [(42, [some { Major := 1, Minor := 22, Patch := 0 },
                         some { Major := 1, Minor := 22, Patch := 1 }])] 42 = some versions ∧
        versions.length = ["1.22.0", "1.22.1"].length ∧
        ∀ (i : Nat) (hi : i < ["1.22.0", "1.22.1"].length),
          ∃ v, Parse (["1.22.0", "1.22.1"].get ⟨i, hi⟩) = .ok v ∧
            versions[i]? = some (some v) :=
  ⟨by decide, by decide,
    (init_table_contents "" "" "" exampleSource Parse
      { Current := { Major := 1, Minor := 22, Patch := 75 },
        CurrentApp := { Name := "luxd", Major := 1, Minor := 22, Patch := 75 },
        RPCChainVMProtocolCompatibility :=
          [(42, [some { Major := 1, Minor := 22, Patch := 0 },
                 some { Major := 1, Minor := 22, Patch := 1 }])] }
      (by decide) (by decide)).2 42 ["1.22.0", "1.22.1"] (by decide)⟩

/-- C7, as stated, fails: with the injected strings "1", "12" and "9" (and
the example table) `init` completes with `CurrentApp` = luxd/1.12.9, and the
configuration built by `GetCompatibility` has `minCompatible` = 1.13.0
above `current`. -/
theorem GetCompatibility_floor_above_current :
    init "1" "12" "9" (.ok exampleSource) Parse =
        .ok { Current := { Major := 1, Minor := 12, Patch := 9 },
              CurrentApp := { Name := "luxd", Major := 1, Minor := 12, Patch := 9 },
              RPCChainVMProtocolCompatibility :=
                [(42, [some { Major := 1, Minor := 22, Patch := 0 },
                       some { Major := 1, Minor := 22, Patch := 1 }])] } ∧
      ¬ ((GetCompatibility
            { Current := { Major := 1, Minor := 12, Patch := 9 },
              CurrentApp := { Name := "luxd", Major := 1, Minor := 12, Patch := 9 },
              RPCChainVMProtocolCompatibility :=
                [(42, [some { Major := 1, Minor := 22, Patch := 0 },
                       some { Major := 1, Minor := 22, Patch := 1 }])] } 0).minCompatible.le
          (GetCompatibility
            { Current := { Major := 1, Minor := 12, Patch := 9 },
              CurrentApp := { Name := "luxd", Major := 1, Minor := 12, Patch := 9 },
              RPCChainVMProtocolCompatibility :=
                [(42, [some { Major := 1, Minor := 22, Patch := 0 },
                       some { Major := 1, Minor := 22, Patch := 1 }])] } 0).current) := by
  decide

/-- C7, amended: whenever `init` completes, the configuration built by
`GetCompatibility(t)` satisfies `prevMinCompatible <= minCompatible`
(1.12.0 <= 1.13.0); `minCompatible <= current` holds exactly when `Current`
is at least 1.13.0 in the lexicographic order, which `init` does not check,
and it holds in particular when the three injected strings are empty. -/
theorem GetCompatibility_ordering {ε : Type} (VersionMajor VersionMinor VersionPatch : String)
    (decoded : Except ε (GoMap (List String))) (Parse : String → Except ε Semantic)
    (g : Globals) (t : Time)
    (h : init VersionMajor VersionMinor VersionPatch decoded Parse = .ok g) :
    (GetCompatibility g t).prevMinCompatible.le (GetCompatibility g t).minCompatible ∧
    ((GetCompatibility g t).minCompatible.le (GetCompatibility g t).current ↔
      (1 < g.Current.Major ∨ (g.Current.Major = 1 ∧
        (13 < g.Current.Minor ∨ (g.Current.Minor = 13 ∧ 0 ≤ g.Current.Patch))))) ∧
    (VersionMajor = "" → VersionMinor = "" → VersionPatch = "" →
      (GetCompatibility g t).minCompatible.le (GetCompatibility g t).current) := by
  obtain ⟨hM, hm, hp, ha⟩ :=
    (initVersion_ok_iff _ _ _ _ _).mp ((init_ok_iff _ _ _ _ _ _).mp h).1
  have key : (GetCompatibility g t).minCompatible.le (GetCompatibility g t).current ↔
      (1 < g.Current.Major ∨ (g.Current.Major = 1 ∧
        (13 < g.Current.Minor ∨ (g.Current.Minor = 13 ∧ 0 ≤ g.Current.Patch)))) := by
    simp only [GetCompatibility, NewCompatibility, MinimumCompatibleVersion, Application.le,
      Application.Compare, ha]
    split_ifs <;> simp <;> omega
  have hfloors : PrevMinimumCompatibleVersion.le MinimumCompatibleVersion := by decide
  refine ⟨hfloors, key, ?_⟩
  intro e1 e2 _
  rw [key]
  have h1 := (componentIs_value _ _ _ hM).1 e1
  have h2 := (componentIs_value _ _ _ hm).1 e2
  rw [h1, h2]
  exact Or.inr ⟨rfl, Or.inl (by decide)⟩

/-- C7, amended, with all injected strings empty and the example table:
1.12.0 <= 1.13.0 <= 1.22.75. -/
theorem GetCompatibility_ordering_witness :
    init "" "" "" (.ok exampleSource) Parse =
        .ok { Current := { Major := 1, Minor := 22, Patch := 75 },
              CurrentApp := { Name := "luxd", Major := 1, Minor := 22, Patch := 75 },
              RPCChainVMProtocolCompatibility :=
                [(42, [some { Major := 1, Minor := 22, Patch := 0 },
                       some { Major := 1, Minor := 22, Patch := 1 }])] } ∧
      PrevMinimumCompatibleVersion.le MinimumCompatibleVersion ∧
      MinimumCompatibleVersion.le { Name := "luxd", Major := 1, Minor := 22, Patch := 75 } :=
  have h := GetCompatibility_ordering "" "" "" (.ok exampleSource) Parse
    { Current := { Major := 1, Minor := 22, Patch := 75 },
      CurrentApp := { Name := "luxd", Major := 1, Minor := 22, Patch := 75 },
      RPCChainVMProtocolCompatibility :=
        [(42, [some { Major := 1, Minor := 22, Patch := 0 },
               some { Major := 1, Minor := 22, Patch := 1 }])] } 0 (by decide)
  ⟨by decide, h.1, h.2.2 rfl rfl rfl⟩



/-- C8: time gating for the checker built by `GetCompatibility(T)`.  For
every cutover `T`, every query time `now` and every peer named "luxd" whose
version `v` satisfies 1.12.0 <= v < 1.13.0, the peer is Compatible when
`now < T` and Incompatible (below the new floor 1.13.0) when `now >= T`. -/
theorem checkCompatible_time_gating {ε : Type}
    (VersionMajor VersionMinor VersionPatch : String)
    (decoded : Except ε (GoMap (List String))) (Parse : String → Except ε Semantic)
    (g : Globals) (T now : Time) (peer : Application)
    (h : init VersionMajor VersionMinor VersionPatch decoded Parse = .ok g)
    (hname : peer.Name = "luxd")
    (hlo : PrevMinimumCompatibleVersion.le peer)
    (hhi : peer.lt MinimumCompatibleVersion) :
    (now < T → checkCompatible (GetCompatibility g T) peer now = .Compatible) ∧
    (T ≤ now → checkCompatible (GetCompatibility g T) peer now
        = .Incompatible (.belowFloor MinimumCompatibleVersion)) := by
  obtain ⟨-, -, -, ha⟩ :=
    (initVersion_ok_iff _ _ _ _ _).mp ((init_ok_iff _ _ _ _ _ _).mp h).1
  have hn : ¬ peer.Name ≠ (GetCompatibility g T).current.Name := by
    simp [GetCompatibility, NewCompatibility, ha, hname, Client]
  have hge : peer.Compare PrevMinimumCompatibleVersion ≠ .lt := by
    rw [Application.Compare_swap PrevMinimumCompatibleVersion peer]
    unfold Application.le at hlo
    cases hc : PrevMinimumCompatibleVersion.Compare peer <;> simp_all [Ordering.swap]
  constructor
  · intro hlt
    have hf : effectiveFloor (GetCompatibility g T) now = PrevMinimumCompatibleVersion := by
      simp [effectiveFloor, GetCompatibility, NewCompatibility, hlt]
    unfold checkCompatible
    rw [if_neg hn, hf, if_neg hge]
  · intro hle
    have hf : effectiveFloor (GetCompatibility g T) now = MinimumCompatibleVersion := by
      simp [effectiveFloor, GetCompatibility, NewCompatibility, not_lt.mpr hle]
    unfold checkCompatible
    have hhi2 : peer.Compare MinimumCompatibleVersion = .lt := hhi
    rw [if_neg hn, hf, if_pos hhi2]

/-- C8, at the cutover 2024-01-01 (1704067200 s after the Unix epoch) for the
peer luxd/1.12.5: Compatible at 2023-12-01 (1701388800) and Incompatible at
2024-02-01 (1706745600); here `init` ran with empty injected strings. -/
theorem checkCompatible_time_gating_witness :
    checkCompatible
        (GetCompatibility
          { Current := { Major := 1, Minor := 22, Patch := 75 },
            CurrentApp := { Name := "luxd", Major := 1, Minor := 22, Patch := 75 },
            RPCChainVMProtocolCompatibility :=
              [(42, [some { Major := 1, Minor := 22, Patch := 0 },
                     some { Major := 1, Minor := 22, Patch := 1 }])] } 1704067200)
        { Name := "luxd", Major := 1, Minor := 12, Patch := 5 } 1701388800 = .Compatible ∧
      checkCompatible
        (GetCompatibility
          { Current := { Major := 1, Minor := 22, Patch := 75 },
            CurrentApp := { Name := "luxd", Major := 1, Minor := 22, Patch := 75 },
            RPCChainVMProtocolCompatibility :=
              [(42, [some { Major := 1, Minor := 22, Patch := 0 },
                     some { Major := 1, Minor := 22, Patch := 1 }])] } 1704067200)
        { Name := "luxd", Major := 1, Minor := 12, Patch := 5 } 1706745600
          = .Incompatible (.belowFloor MinimumCompatibleVersion) :=
  ⟨(checkCompatible_time_gating "" "" "" (.ok exampleSource) Parse _ 1704067200 1701388800
      { Name := "luxd", Major := 1, Minor := 12, Patch := 5 }
      (by decide) (by decide) (by decide) (by decide)).1 (by decide),
   (checkCompatible_time_gating "" "" "" (.ok exampleSource) Parse _ 1704067200 1706745600
      { Name := "luxd", Major := 1, Minor := 12, Patch := 5 }
      (by decide) (by decide) (by decide) (by decide)).2 (by decide)⟩

/-- C9: whenever `init` completes, `CurrentApp` is `Current` tagged with the
client name: its name is "luxd" (the constant `Client`), its three
components are those of `Current`, and `MinimumCompatibleVersion`,
`PrevMinimumCompatibleVersion` and `CurrentApp` share the same name. -/
theorem init_currentApp {ε : Type} (VersionMajor VersionMinor VersionPatch : String)
    (decoded : Except ε (GoMap (List String))) (Parse : String → Except ε Semantic)
    (g : Globals)
    (h : init VersionMajor VersionMinor VersionPatch decoded Parse = .ok g) :
    g.CurrentApp.Name = "luxd" ∧ g.CurrentApp.Name = Client ∧
    g.CurrentApp.Major = g.Current.Major ∧ g.CurrentApp.Minor = g.Current.Minor ∧
    g.CurrentApp.Patch = g.Current.Patch ∧
    MinimumCompatibleVersion.Name = g.CurrentApp.Name ∧
    PrevMinimumCompatibleVersion.Name = g.CurrentApp.Name := by
  obtain ⟨-, -, -, ha⟩ :=
    (initVersion_ok_iff _ _ _ _ _).mp ((init_ok_iff _ _ _ _ _ _).mp h).1
  rw [ha]
  exact ⟨rfl, rfl, rfl, rfl, rfl, rfl, rfl⟩

/-- C9, at the injected strings "1", "12" and "9" with the example table. -/
theorem init_currentApp_witness :
    init "1" "12" "9" (.ok exampleSource) Parse =
        .ok { Current := { Major := 1, Minor := 12, Patch := 9 },
              CurrentApp := { Name := "luxd", Major := 1, Minor := 12, Patch := 9 },
              RPCChainVMProtocolCompatibility :=
                [(42, [some { Major := 1, Minor := 22, Patch := 0 },
                       some { Major := 1, Minor := 22, Patch := 1 }])] } ∧
      MinimumCompatibleVersion.Name = "luxd" ∧ PrevMinimumCompatibleVersion.Name = "luxd" :=
  have h := init_currentApp "1" "12" "9" (.ok exampleSource) Parse
    { Current := { Major := 1, Minor := 12, Patch := 9 },
      CurrentApp := { Name := "luxd", Major := 1, Minor := 12, Patch := 9 },
      RPCChainVMProtocolCompatibility :=
        [(42, [some { Major := 1, Minor := 22, Patch := 0 },
               some { Major := 1, Minor := 22, Patch := 1 }])] } (by decide)
  ⟨by decide, h.2.2.2.2.2.1, h.2.2.2.2.2.2⟩

/-- C10: the compatibility configuration does not depend on the protocol
compatibility table.  For two runs of `init` that complete with the same
injected strings and any two table sources, `GetCompatibility(t)` is built
from the same `CurrentApp`, the same floors and the same `t`. -/
theorem GetCompatibility_independent_of_table {ε : Type}
    (VersionMajor VersionMinor VersionPatch : String)
    (decoded₁ decoded₂ : Except ε (GoMap (List String)))
    (Parse : String → Except ε Semantic) (g₁ g₂ : Globals) (t : Time)
    (h₁ : init VersionMajor VersionMinor VersionPatch decoded₁ Parse = .ok g₁)
    (h₂ : init VersionMajor VersionMinor VersionPatch decoded₂ Parse = .ok g₂) :
    g₁.CurrentApp = g₂.CurrentApp ∧ GetCompatibility g₁ t = GetCompatibility g₂ t := by
  have e₁ := ((init_ok_iff _ _ _ _ _ _).mp h₁).1
  have e₂ := ((init_ok_iff _ _ _ _ _ _).mp h₂).1
  have e := e₁.symm.trans e₂
  have ha : g₁.CurrentApp = g₂.CurrentApp := (Prod.mk.inj (Except.ok.inj e)).2
  exact ⟨ha, by unfold GetCompatibility; rw [ha]⟩

/-- C10, for the example source and an empty source, with the injected
strings "1", "22" and "19". -/
theorem GetCompatibility_independent_of_table_witness :
    init "1" "22" "19" (.ok exampleSource) Parse =
        .ok { Current := { Major := 1, Minor := 22, Patch := 19 },
              CurrentApp := { Name := "luxd", Major := 1, Minor := 22, Patch := 19 },
              RPCChainVMProtocolCompatibility :=
                [(42, [some { Major := 1, Minor := 22, Patch := 0 },
                       some { Major := 1, Minor := 22, Patch := 1 }])] } ∧
      init "1" "22" "19" (.ok []) Parse =
        .ok { Current := { Major := 1, Minor := 22, Patch := 19 },
              CurrentApp := { Name := "luxd", Major := 1, Minor := 22, Patch := 19 },
              RPCChainVMProtocolCompatibility := [] } ∧
      GetCompatibility
          { Current := { Major := 1, Minor := 22, Patch := 19 },
            CurrentApp := { Name := "luxd", Major := 1, Minor := 22, Patch := 19 },
            RPCChainVMProtocolCompatibility :=
              [(42, [some { Major := 1, Minor := 22, Patch := 0 },
                     some { Major := 1, Minor := 22, Patch := 1 }])] } 1704067200 =
        GetCompatibility
          { Current := { Major := 1, Minor := 22, Patch := 19 },
            CurrentApp := { Name := "luxd", Major := 1, Minor := 22, Patch := 19 },
            RPCChainVMProtocolCompatibility := [] } 1704067200 :=
  ⟨by decide, by decide,
    (GetCompatibility_independent_of_table "1" "22" "19" (.ok exampleSource) (.ok []) Parse
      _ _ 1704067200 (by decide) (by decide)).2⟩

end Version
